import Mathlib

/-!
Verification development for the Tsuro game engine.

This file gives a shallow embedding, in Lean 4, of the core of the Tsuro
repository (tile/port geometry, immutable board states, the mutable `Board`
wrapper with its transactional moves and path resolution, the rule checker,
and the per-match referee), together with theorems settling the frozen claims
about the natural-language specification of that code.

Conventions used throughout the embedding:
* Python `int` port identifiers (always in `0..7`) become `Fin 8`; the
  `(p + 2) % 8` arithmetic of tile rotation is the wrap-around addition of
  `Fin 8`.
* Board coordinates (validated to `0..9` by the `BoardPosition` constructor)
  become `Fin 10`.
* `pyrsistent` persistent maps become association lists with the usual
  update-or-append `set`, `lookup` by first match, and removal by filtering.
* `Result[T]` becomes `Except String T`; `ok`/`error` become `.ok`/`.error`.
* Board observers are not modelled as mutable registrations; instead every
  board operation returns the list of `player_entered_loop` and
  `player_exited_board` events it would have emitted, which is exactly the
  information the `LoggingObserver` in the source records.
-/

namespace Tsuro

/-! ### Ports (src/Common/tiles.py, class Port) -/

/-- A port identifier, one of the 8 fixed ports of a tile
(`PortID = NewType("PortID", int)`, values 0..7). -/
abbrev PortId := Fin 8

namespace Port

def TopLeft : PortId := 0
def TopRight : PortId := 1
def RightTop : PortId := 2
def RightBottom : PortId := 3
def BottomRight : PortId := 4
def BottomLeft : PortId := 5
def LeftBottom : PortId := 6
def LeftTop : PortId := 7

/-- `Port.all()`: the port ids in clockwise order from the top left. -/
def all : List PortId :=
  [TopLeft, TopRight, RightTop, RightBottom, BottomRight, BottomLeft, LeftBottom, LeftTop]

/-- `Port.get_adjoining_port`: the port a given port faces on the neighboring
tile.  The source raises `ValueError` on an invalid port; with `Fin 8` every
port is matched, so the final fall-through branch is unreachable. -/
def adjoining (p : PortId) : PortId :=
  if p = TopLeft then BottomLeft
  else if p = TopRight then BottomRight
  else if p = RightTop then LeftTop
  else if p = RightBottom then LeftBottom
  else if p = LeftBottom then RightBottom
  else if p = LeftTop then RightTop
  else if p = BottomLeft then TopLeft
  else TopRight

end Port

/-! ### Tiles (src/Common/tiles.py, class Tile) -/

/-- A tile edge, stored (after constructor normalization) as
`(smallerPortId, largerPortId)` and compared as Python compares int pairs:
lexicographically. -/
abbrev Edge := Fin 8 ×ₗ Fin 8

/-- Normalize a pair of ports into an edge `(min, max)`, as the `Tile`
constructor does. -/
def mkEdge (a b : PortId) : Edge := toLex (min a b, max a b)

/-- `sorted` on a list, with Python's lexicographic `<` on the elements. -/
def sortLe {α : Type} [LinearOrder α] (l : List α) : List α :=
  l.insertionSort (· ≤ ·)

/-- A Tsuro tile: the list of edges as stored by the `Tile` constructor
(each edge `(min, max)`, the list sorted). -/
structure Tile where
  edges : List Edge
deriving DecidableEq

/-- The `Tile.__init__` constructor: normalize each pair to `(min, max)` and
sort the resulting edge list. -/
def Tile.ofEdges (l : List (PortId × PortId)) : Tile :=
  ⟨sortLe (l.map (fun e => mkEdge e.1 e.2))⟩

/-- The edge list really is a constructor output: pairs normalized, list
sorted.  Every `Tile` object the Python code can build satisfies this. -/
def Tile.wf (t : Tile) : Prop :=
  sortLe t.edges = t.edges ∧ ∀ e ∈ t.edges, (ofLex e).1 ≤ (ofLex e).2

instance (t : Tile) : Decidable t.wf := by
  unfold Tile.wf; infer_instance

/-- The constructor's `assert`s: exactly 4 edges whose flattened ports,
sorted, are `[0, 1, ..., 7]`. -/
def Tile.valid (t : Tile) : Prop :=
  t.edges.length = 4 ∧
    sortLe (t.edges.map (fun e => [(ofLex e).1, (ofLex e).2])).flatten = List.finRange 8

instance (t : Tile) : Decidable t.valid := by
  unfold Tile.valid; infer_instance

/-- One edge of `Tile.rotate`: add two to each port (mod 8, by `Fin` addition)
and renormalize through the constructor. -/
def rotEdge (e : Edge) : Edge := mkEdge ((ofLex e).1 + 2) ((ofLex e).2 + 2)

/-- `Tile.rotate`: rotate 90 degrees clockwise, i.e. add 2 (mod 8) to every
port and rebuild the tile through the constructor. -/
def Tile.rotate (t : Tile) : Tile :=
  Tile.ofEdges (t.edges.map (fun e => ((ofLex e).1 + 2, (ofLex e).2 + 2)))

/-- `Tile.all_rotations`: the rotations by 0, 90, 180 and 270 degrees. -/
def Tile.allRotations (t : Tile) : List Tile :=
  [t, t.rotate, t.rotate.rotate, t.rotate.rotate.rotate]

/-- `Tile.get_port_connected_to`: scan the edges for the first one containing
the port and return the other end.  The source raises `ValueError` when no
edge contains the port; that branch is unreachable for constructor-validated
tiles (whose edges cover all 8 ports), and is embedded as returning the port
itself. -/
def Tile.getPortConnectedTo (t : Tile) (p : PortId) : PortId :=
  match t.edges.find? (fun e => (ofLex e).1 == p || (ofLex e).2 == p) with
  | some e => if (ofLex e).1 = p then (ofLex e).2 else (ofLex e).1
  | none => p

/-- `Tile._to_key`: the list of the four rotations' edge lists, sorted
(Python sorts lists of lists lexicographically and then takes `str`, which is
injective on these lists). -/
def Tile.toKey (t : Tile) : List (List Edge) :=
  sortLe [t.edges, t.rotate.edges, t.rotate.rotate.edges, t.rotate.rotate.rotate.edges]

/-- `Tile.__eq__`: equality of keys, i.e. equality modulo the four
90-degree rotations. -/
def tileEq (t₁ t₂ : Tile) : Prop := t₁.toKey = t₂.toKey

instance (t₁ t₂ : Tile) : Decidable (tileEq t₁ t₂) := by
  unfold tileEq; infer_instance

/-! ### Basic facts about sorting and rotation -/

theorem sortLe_perm {α : Type} [LinearOrder α] (l : List α) : List.Perm (sortLe l) l :=
  List.perm_insertionSort _ l

theorem sortLe_sorted {α : Type} [LinearOrder α] (l : List α) :
    List.Sorted (· ≤ ·) (sortLe l) :=
  List.sorted_insertionSort _ l

/-- Sorting with a linear order only depends on the multiset of elements. -/
theorem sortLe_congr_perm {α : Type} [LinearOrder α] {l₁ l₂ : List α}
    (h : List.Perm l₁ l₂) : sortLe l₁ = sortLe l₂ :=
  List.eq_of_perm_of_sorted ((sortLe_perm l₁).trans (h.trans (sortLe_perm l₂).symm))
    (sortLe_sorted l₁) (sortLe_sorted l₂)

theorem tile_rotate_edges (t : Tile) : t.rotate.edges = sortLe (t.edges.map rotEdge) := by
  unfold Tile.rotate Tile.ofEdges
  rw [List.map_map]
  rfl

/-- Rotating the sorted edge list is the same as sorting the rotated one. -/
theorem sortLe_map_sortLe {α β : Type} [LinearOrder α] [LinearOrder β]
    (f : α → β) (l : List α) : sortLe ((sortLe l).map f) = sortLe (l.map f) :=
  sortLe_congr_perm ((sortLe_perm l).map f)

theorem rotate_edges_eq (t : Tile) (l : List Edge) (h : t.edges = sortLe l) :
    t.rotate.edges = sortLe (l.map rotEdge) := by
  rw [tile_rotate_edges, h, sortLe_map_sortLe]

theorem Tile.eq_of_edges {t₁ t₂ : Tile} (h : t₁.edges = t₂.edges) : t₁ = t₂ := by
  cases t₁; cases t₂; simpa using h

/-- Adding 2 mod 8 four times to each end of an edge is the identity on the
unordered pair, so the renormalized edge is just the original renormalized. -/
theorem rotEdge_four : ∀ e : Edge,
    rotEdge (rotEdge (rotEdge (rotEdge e))) = mkEdge (ofLex e).1 (ofLex e).2 := by decide

theorem mkEdge_of_normal : ∀ e : Edge,
    (ofLex e).1 ≤ (ofLex e).2 → mkEdge (ofLex e).1 (ofLex e).2 = e := by decide

theorem mkEdge_normal : ∀ a b : PortId,
    (ofLex (mkEdge a b)).1 ≤ (ofLex (mkEdge a b)).2 := by decide

/-- Every tile built by the constructor satisfies `Tile.wf`. -/
theorem ofEdges_wf (l : List (PortId × PortId)) : (Tile.ofEdges l).wf := by
  constructor
  · exact List.Sorted.insertionSort_eq (sortLe_sorted _)
  · intro e he
    unfold Tile.ofEdges at he
    have he2 := (List.mem_insertionSort _).1 he
    obtain ⟨p, _, rfl⟩ := List.mem_map.1 he2
    exact mkEdge_normal p.1 p.2

theorem rotate_wf (t : Tile) : t.rotate.wf := ofEdges_wf _

/-- Rotating four times is the identity on constructor-normalized tiles. -/
theorem rotate_four (t : Tile) (hwf : t.wf) : t.rotate.rotate.rotate.rotate = t := by
  apply Tile.eq_of_edges
  have e1 : t.rotate.edges = sortLe (t.edges.map rotEdge) := tile_rotate_edges t
  have e2 := rotate_edges_eq _ _ e1
  have e3 := rotate_edges_eq _ _ e2
  have e4 := rotate_edges_eq _ _ e3
  rw [List.map_map, List.map_map, List.map_map] at e4
  have hpt : t.edges.map (((rotEdge ∘ rotEdge) ∘ rotEdge) ∘ rotEdge) = t.edges := by
    have : ∀ e ∈ t.edges, (((rotEdge ∘ rotEdge) ∘ rotEdge) ∘ rotEdge) e = id e := by
      intro e he
      show rotEdge (rotEdge (rotEdge (rotEdge e))) = e
      rw [rotEdge_four e]
      exact mkEdge_of_normal e (hwf.2 e he)
    rw [List.map_congr_left this, List.map_id]
  rw [e4, hpt, hwf.1]

/-- Rotating a normalized tile does not change its `_to_key`. -/
theorem toKey_rotate (t : Tile) (hwf : t.wf) : t.rotate.toKey = t.toKey := by
  unfold Tile.toKey
  apply sortLe_congr_perm
  rw [rotate_four t hwf]
  exact @List.perm_append_comm _
    [t.rotate.edges, t.rotate.rotate.edges, t.rotate.rotate.rotate.edges]
    [t.edges]

/-- The four rotations of a tile have pairwise distinct raw edge lists. -/
def Tile.rotationsDistinct (t : Tile) : Prop :=
  List.Pairwise (· ≠ ·)
    [t.edges, t.rotate.edges, t.rotate.rotate.edges, t.rotate.rotate.rotate.edges]

instance (t : Tile) : Decidable t.rotationsDistinct := by
  unfold Tile.rotationsDistinct; infer_instance

/-- The fully symmetric tile `[(0,1),(2,3),(4,5),(6,7)]` (each side's two
ports joined); rotating it yields the same raw edge list. -/
def plusTile : Tile := Tile.ofEdges [(0, 1), (2, 3), (4, 5), (6, 7)]

/-- An asymmetric tile whose four rotations have distinct raw edge lists. -/
def asymTile : Tile := Tile.ofEdges [(0, 1), (2, 4), (3, 5), (6, 7)]

/-- C4 (counterexample): the fully symmetric valid tile falsifies the claim
that the four rotations of every valid tile are pairwise distinct as raw
edge lists — its 90-degree rotation has the very same edge list. -/
theorem c4_counterexample :
    plusTile.wf ∧ plusTile.valid ∧ plusTile.rotate.edges = plusTile.edges ∧
      ¬ plusTile.rotationsDistinct := by decide

/-- C4 (amended): for every valid tile `t`, `t` equals `rotate t`,
`rotate (rotate t)` and `rotate (rotate (rotate t))` under Tile equality
(equality of `_to_key`); the four rotations have pairwise distinct raw edge
lists for some valid tiles but not for all (rotation-symmetric tiles repeat
edge lists). -/
theorem c4_rotation_invariance :
    (∀ t : Tile, t.wf → t.valid →
      tileEq t t.rotate ∧ tileEq t t.rotate.rotate ∧ tileEq t t.rotate.rotate.rotate)
    ∧ (∃ t : Tile, t.wf ∧ t.valid ∧ t.rotationsDistinct)
    ∧ (∃ t : Tile, t.wf ∧ t.valid ∧ ¬ t.rotationsDistinct) := by
  refine ⟨fun t hwf _ => ?_, ⟨asymTile, by decide⟩, ⟨plusTile, by decide⟩⟩
  have k1 : t.rotate.toKey = t.toKey := toKey_rotate t hwf
  have k2 : t.rotate.rotate.toKey = t.rotate.toKey := toKey_rotate _ (rotate_wf t)
  have k3 : t.rotate.rotate.rotate.toKey = t.rotate.rotate.toKey :=
    toKey_rotate _ (rotate_wf _)
  exact ⟨k1.symm, (k2.trans k1).symm, ((k3.trans k2).trans k1).symm⟩

/-- C4 witness: the amended theorem instantiated at the symmetric tile. -/
theorem c4_witness :
    tileEq plusTile plusTile.rotate ∧ tileEq plusTile plusTile.rotate.rotate ∧
      tileEq plusTile plusTile.rotate.rotate.rotate :=
  c4_rotation_invariance.1 plusTile (by decide) (by decide)

/-! ### Colors (src/Common/color.py) -/

/-- `ColorString`: the fixed 5-element palette of agent identities. -/
inductive Color
  | white
  | black
  | red
  | green
  | blue
deriving DecidableEq, Repr

/-- `AllColors`, in the order defined in the source. -/
def AllColors : List Color := [.white, .black, .red, .green, .blue]

/-! ### Board positions (src/Common/board_position.py) -/

/-- `BoardPosition`: coordinates validated by the constructor to lie in
`0..9` (here `Fin 10`; `(0,0)` is the top-left corner). -/
structure BoardPosition where
  x : Fin 10
  y : Fin 10
deriving DecidableEq, Repr

/-- `BoardPosition.is_edge`. -/
def BoardPosition.isEdge (p : BoardPosition) : Prop :=
  p.x = 0 ∨ p.x = 9 ∨ p.y = 0 ∨ p.y = 9

instance (p : BoardPosition) : Decidable p.isEdge := by
  unfold BoardPosition.isEdge; infer_instance

/-! ### Association lists, the embedding of pyrsistent persistent maps -/

/-- Map lookup (`pmap.get(k, None)` / `k in pmap` / `pmap[k]`). -/
def lookupA {K V : Type} [DecidableEq K] : List (K × V) → K → Option V
  | [], _ => none
  | kv :: t, k => if kv.1 = k then some kv.2 else lookupA t k

/-- Map update (`pmap.set(k, v)`): replace the binding in place if the key is
present, else append a new binding. -/
def setAssoc {K V : Type} [DecidableEq K] : List (K × V) → K → V → List (K × V)
  | [], k, v => [(k, v)]
  | kv :: t, k, v => if kv.1 = k then (k, v) :: t else kv :: setAssoc t k v

/-- Map removal (`pmap.remove(k)`). -/
def removeA {K V : Type} [DecidableEq K] (m : List (K × V)) (k : K) : List (K × V) :=
  m.filter (fun kv => decide (kv.1 ≠ k))

/-! ### Board states (src/Common/board_state.py) -/

/-- `BoardState`: an immutable snapshot — a map from positions to tiles and a
map from live players to their `(position, port)`. -/
structure BoardState where
  board : List (BoardPosition × Tile) := []
  live : List (Color × (BoardPosition × PortId)) := []
deriving DecidableEq

/-- `BoardState.get_tile`. -/
def BoardState.getTile (s : BoardState) (pos : BoardPosition) : Option Tile :=
  lookupA s.board pos

/-- `BoardState.get_position_of_player`. -/
def BoardState.getPositionOfPlayer (s : BoardState) (c : Color) :
    Except String (BoardPosition × PortId) :=
  match lookupA s.live c with
  | some pp => .ok pp
  | none => .error "player is not on the board"

/-- The direction arithmetic of `calculate_adjacent_position_of_player`:
the cell one step ahead of `(pos, port)`, or `none` when that step leaves the
board.  Ports 0,1 step up (`y - 1`), 2,3 right (`x + 1`), 4,5 down (`y + 1`)
and 6,7 left (`x - 1`), with the source's bounds checks. -/
def adjacentPos (pos : BoardPosition) (port : PortId) : Option BoardPosition :=
  if port = Port.TopLeft ∨ port = Port.TopRight then
    if h : 1 ≤ pos.y.val then
      some ⟨pos.x, ⟨pos.y.val - 1, by have := pos.y.isLt; omega⟩⟩
    else none
  else if port = Port.RightTop ∨ port = Port.RightBottom then
    if h : pos.x.val + 1 ≤ 9 then some ⟨⟨pos.x.val + 1, by omega⟩, pos.y⟩ else none
  else if port = Port.BottomLeft ∨ port = Port.BottomRight then
    if h : pos.y.val + 1 ≤ 9 then some ⟨pos.x, ⟨pos.y.val + 1, by omega⟩⟩ else none
  else
    if h : 1 ≤ pos.x.val then
      some ⟨⟨pos.x.val - 1, by have := pos.x.isLt; omega⟩, pos.y⟩
    else none

/-- `BoardState.calculate_adjacent_position_of_player`.  With `Fin 8` ports
the source's final "could not match port" error branch is unreachable. -/
def BoardState.calcAdjacent (s : BoardState) (c : Color) :
    Except String (Option BoardPosition) :=
  match lookupA s.live c with
  | none => .error "player is not a live player"
  | some (pos, port) => .ok (adjacentPos pos port)

/-- Whether an (optional) position carries no tile; the bounds checks of
`surrounding_positions_are_empty` make the off-board neighbors vacuously
empty. -/
def BoardState.emptyAt (s : BoardState) (p : Option BoardPosition) : Bool :=
  match p with
  | none => true
  | some q => (s.getTile q).isNone

/-- `BoardState.surrounding_positions_are_empty`: up, left, down and right
neighbors (when on the board) all carry no tile. -/
def BoardState.surroundingEmpty (s : BoardState) (pos : BoardPosition) : Bool :=
  s.emptyAt (adjacentPos pos Port.TopLeft) && s.emptyAt (adjacentPos pos Port.LeftTop) &&
    s.emptyAt (adjacentPos pos Port.BottomLeft) && s.emptyAt (adjacentPos pos Port.RightTop)

/-- `BoardState.port_faces_interior` (which, as in the source, ignores the
state). -/
def BoardState.portFacesInterior (_s : BoardState) (pos : BoardPosition) (port : PortId) :
    Bool :=
  if pos.x = 0 ∧ (port = Port.LeftTop ∨ port = Port.LeftBottom) then false
  else if pos.y = 0 ∧ (port = Port.TopLeft ∨ port = Port.TopRight) then false
  else if pos.x = 9 ∧ (port = Port.RightBottom ∨ port = Port.RightTop) then false
  else if pos.y = 9 ∧ (port = Port.BottomRight ∨ port = Port.BottomLeft) then false
  else true

/-- `BoardState.with_change`: build a brand-new snapshot with the requested
tile added and/or the live-player map replaced. -/
def BoardState.withChange (s : BoardState) (addedTilePos : Option (Tile × BoardPosition))
    (newLivePlayers : Option (List (Color × (BoardPosition × PortId)))) : BoardState :=
  { board :=
      match addedTilePos with
      | some (tile, pos) => setAssoc s.board pos tile
      | none => s.board
    live :=
      match newLivePlayers with
      | some lp => lp
      | none => s.live }

/-- `BoardState.with_tile`. -/
def BoardState.withTile (s : BoardState) (t : Tile) (pos : BoardPosition) : BoardState :=
  s.withChange (some (t, pos)) none

/-- `BoardState.with_live_players`. -/
def BoardState.withLivePlayers (s : BoardState)
    (lp : List (Color × (BoardPosition × PortId))) : BoardState :=
  s.withChange none (some lp)

/-! ### Physical constraint checker (src/Common/board_constraint.py) -/

/-- `PhysicalConstraintChecker.is_valid_initial_position`. -/
def isValidInitialPosition (s : BoardState) (pos : BoardPosition) : Except String Unit :=
  if (s.getTile pos).isSome then
    .error "there is already a tile at that position"
  else if ¬ pos.isEdge then
    .error "cannot make an initial move since it is not on the edge"
  else if ¬ s.surroundingEmpty pos then
    .error "the surrounding tiles are not all empty"
  else .ok ()

/-- `PhysicalConstraintChecker.is_valid_initial_port`. -/
def isValidInitialPort (s : BoardState) (pos : BoardPosition) (port : PortId) :
    Except String Unit :=
  match isValidInitialPosition s pos with
  | .error e => .error e
  | .ok _ =>
    if ¬ s.portFacesInterior pos port then
      .error "the port does not face the interior of the board"
    else .ok ()

/-! ### Moves (src/Common/moves.py) -/

/-- `InitialMove` (its constructor checks are enforced by the types here). -/
structure InitialMove where
  pos : BoardPosition
  tile : Tile
  port : PortId
  player : Color
deriving DecidableEq

/-- `IntermediateMove`. -/
structure IntermediateMove where
  tile : Tile
  player : Color
deriving DecidableEq

/-- `Board.validate_initial_move`: the already-live check followed by the two
physical-constraint checks. -/
def validateInitialMove (s : BoardState) (m : InitialMove) : Except String Unit :=
  if (lookupA s.live m.player).isSome then
    .error "cannot place player since the player is already on the board"
  else
    match isValidInitialPosition s m.pos with
    | .error e => .error e
    | .ok _ =>
      match isValidInitialPort s m.pos m.port with
      | .error e => .error e
      | .ok _ => .ok ()

/-! ### Claims C7 and C5 -/

theorem lookupA_setAssoc_self {K V : Type} [DecidableEq K] (m : List (K × V)) (k : K)
    (v : V) : lookupA (setAssoc m k v) k = some v := by
  induction m with
  | nil => simp [setAssoc, lookupA]
  | cons kv t ih =>
    by_cases h : kv.1 = k
    · simp [setAssoc, h, lookupA]
    · simp [setAssoc, h, lookupA, ih]

/-- C7: `with_tile` on a snapshot with no tile at `pos` yields a new snapshot
whose `get_tile pos` is the new tile and whose live-agent map is unchanged,
while the original snapshot still answers `None` at `pos`; `with_live_players`
replaces only the live map.  (Absence of mutation is inherent in the
embedding: both operations construct a new value.) -/
theorem c7_snapshot_immutability (s : BoardState) (pos : BoardPosition) (t : Tile)
    (h : s.getTile pos = none) :
    (s.withTile t pos).getTile pos = some t ∧
      (s.withTile t pos).live = s.live ∧
      (∀ lp, (s.withLivePlayers lp).board = s.board ∧ (s.withLivePlayers lp).live = lp) ∧
      s.getTile pos = none := by
  refine ⟨?_, rfl, fun lp => ⟨rfl, rfl⟩, h⟩
  unfold BoardState.withTile BoardState.withChange BoardState.getTile
  exact lookupA_setAssoc_self s.board pos t

/-- C7 witness: the theorem instantiated on the empty snapshot. -/
theorem c7_witness :
    (BoardState.withTile {} plusTile ⟨0, 0⟩).getTile ⟨0, 0⟩ = some plusTile ∧
      (BoardState.withTile {} plusTile ⟨0, 0⟩).live = BoardState.live {} ∧
      (∀ lp, (BoardState.withLivePlayers {} lp).board = BoardState.board {} ∧
        (BoardState.withLivePlayers {} lp).live = lp) ∧
      BoardState.getTile {} ⟨0, 0⟩ = none :=
  c7_snapshot_immutability {} ⟨0, 0⟩ plusTile (by decide)

/-- C5 (counterexample): on the empty board, placing at the corner `(0,0)` on
port 7 (`LeftTop`, which faces off the board there) is rejected even though
none of the four conditions listed in the claim holds — the claim misses the
port-faces-interior condition. -/
theorem c5_counterexample :
    (validateInitialMove {} ⟨⟨0, 0⟩, plusTile, Port.LeftTop, .white⟩).isOk = false ∧
      (lookupA (BoardState.live {}) Color.white).isSome = false ∧
      (BoardState.getTile {} ⟨0, 0⟩).isSome = false ∧
      BoardPosition.isEdge ⟨0, 0⟩ ∧
      BoardState.surroundingEmpty {} ⟨0, 0⟩ = true := by decide

/-- C5 (amended): `validate_initial_move` errors iff the agent is already
live, the cell is occupied, the position is not on the board edge, the four
cardinal neighbors are not all empty, **or the chosen port does not face the
interior of the board**; otherwise it returns ok. -/
theorem c5_validate_initial_move (s : BoardState) (m : InitialMove) :
    (validateInitialMove s m).isOk = false ↔
      (lookupA s.live m.player).isSome = true ∨ (s.getTile m.pos).isSome = true ∨
        ¬ m.pos.isEdge ∨ s.surroundingEmpty m.pos = false ∨
        s.portFacesInterior m.pos m.port = false := by
  unfold validateInitialMove isValidInitialPort isValidInitialPosition
  by_cases h1 : (lookupA s.live m.player).isSome <;>
    by_cases h2 : (s.getTile m.pos).isSome <;>
      by_cases h3 : m.pos.isEdge <;>
        by_cases h4 : s.surroundingEmpty m.pos <;>
          by_cases h5 : s.portFacesInterior m.pos m.port <;>
            simp_all [Except.isOk, Except.toBool]

/-! ### The Board wrapper (src/Common/board.py)

A `Board` owns one current `BoardState`; its operations are state
transformers.  Each operation returns `(result, new state, events)`, where
the events are the `player_entered_loop` / `player_exited_board`
notifications a `LoggingObserver` attached to the board would record. -/

instance {ε α : Type} [DecidableEq ε] [DecidableEq α] : DecidableEq (Except ε α)
  | .error e₁, .error e₂ => decidable_of_iff (e₁ = e₂) (by simp)
  | .error _, .ok _ => isFalse (by simp)
  | .ok _, .error _ => isFalse (by simp)
  | .ok a₁, .ok a₂ => decidable_of_iff (a₁ = a₂) (by simp)

/-- The observer events emitted by one board operation. -/
structure Events where
  loops : List Color := []
  exits : List Color := []
deriving DecidableEq, Repr

/-- The result of one board operation: the `Result`, the board state after
the call, and the emitted events. -/
abbrev OpResult := Except String Unit × BoardState × Events

/-- The `@atomic` decorator: run the operation; if it returns an error,
restore the board state from before the call. -/
def atomic (f : BoardState → OpResult) : BoardState → OpResult := fun b =>
  let r := f b
  match r.1 with
  | .error e => (.error e, b, r.2.2)
  | .ok _ => r

/-- `Board.remove_player`. -/
def removePlayer (b : BoardState) (c : Color) : BoardState :=
  b.withLivePlayers (removeA b.live c)

/-- The body of the `while True` loop of `Board._move_player_along_path`,
with explicit fuel.  Each iteration looks up the player's `(position, port)`,
returns "remove, loop" on a repeat, walks one step otherwise, extending the
`seen` set.  Result: `(state, removed-from-board?, entered-loop?)`.
`none` means the fuel ran out (which claim C10 shows cannot happen from
fuel 801, since `seen` gains a fresh pair of the 800 possible each step). -/
def walkGo :
    Nat → BoardState → Color → List (BoardPosition × PortId) →
      Option (Except String (BoardState × Bool × Bool))
  | 0, _, _, _ => none
  | fuel + 1, b, c, seen =>
    match lookupA b.live c with
    | none => some (.error "failed to move player along path")
    | some (pos, port) =>
      if (pos, port) ∈ seen then some (.ok (b, true, true))
      else
        match b.calcAdjacent c with
        | .error _ => some (.error "failed to move player along path")
        | .ok none => some (.ok (b, true, false))
        | .ok (some nextPos) =>
          match b.getTile nextPos with
          | none => some (.ok (b, false, false))
          | some nextTile =>
            walkGo fuel
              (b.withLivePlayers
                (setAssoc b.live c
                  (nextPos, nextTile.getPortConnectedTo (Port.adjoining port))))
              c ((pos, port) :: seen)

/-- `Board._move_player_along_path`.  Fuel 801 = 10 * 10 * 8 + 1 always
suffices (claim C10), so the out-of-fuel branch is unreachable. -/
def movePlayerAlongPath (b : BoardState) (c : Color) :
    Except String (BoardState × Bool × Bool) :=
  match walkGo 801 b c [] with
  | some r => r
  | none => .error "path resolution ran out of fuel"

/-- The loop of `Board._move_all_players_along_paths`: walk each player of
the snapshot taken at loop entry, collecting who must be removed and who
entered a loop; after the full pass remove them and emit the exit events. -/
def moveAllGo :
    List Color → BoardState → List Color → List Color →
      Except String (BoardState × Events)
  | [], b, toRemove, loops =>
    .ok (toRemove.foldl removePlayer b, { loops := loops, exits := toRemove })
  | c :: rest, b, toRemove, loops =>
    match movePlayerAlongPath b c with
    | .error e => .error e
    | .ok (b2, removed, looped) =>
      moveAllGo rest b2 (toRemove ++ if removed then [c] else [])
        (loops ++ if looped then [c] else [])

/-- `Board._move_all_players_along_paths`. -/
def moveAllPlayers (b : BoardState) : Except String (BoardState × Events) :=
  moveAllGo (b.live.map (fun cv => cv.1)) b [] []

/-- `Board.validate_intermediate_move`: the named agent must be live. -/
def validateIntermediateMove (s : BoardState) (m : IntermediateMove) :
    Except String Unit :=
  if (lookupA s.live m.player).isNone then
    .error "cannot place a tile for player since they are not alive"
  else .ok ()

/-- The body of `Board.intermediate_move` (before the `@atomic` wrapper):
validate, compute the cell ahead of the agent, reject off-board or occupied
targets, place the tile, resolve paths; if anyone entered a loop, restore the
pre-placement state and remove exactly the looping agents. -/
def intermediateMoveInner (b : BoardState) (m : IntermediateMove) : OpResult :=
  match validateIntermediateMove b m with
  | .error e => (.error e, b, {})
  | .ok _ =>
    match b.calcAdjacent m.player with
    | .error e => (.error e, b, {})
    | .ok none =>
      (.error "cannot place tile since it would go off the edge of the board", b, {})
    | .ok (some pos) =>
      if (b.getTile pos).isSome then
        (.error "cannot place tile since it would be on top of an existing tile", b, {})
      else
        match moveAllPlayers (b.withTile m.tile pos) with
        | .error e => (.error e, b.withTile m.tile pos, {})
        | .ok (b2, ev) =>
          if ev.loops = [] then (.ok (), b2, ev)
          else (.ok (), ev.loops.foldl removePlayer b, ev)

/-- `Board.intermediate_move`. -/
def intermediateMove (b : BoardState) (m : IntermediateMove) : OpResult :=
  atomic (fun s => intermediateMoveInner s m) b

/-- The body of `Board.initial_move_with_scissors`: place the tile, put the
agent on its port, resolve paths. -/
def initialMoveWithScissorsInner (b : BoardState) (m : InitialMove) : OpResult :=
  match moveAllPlayers
      (b.withChange (some (m.tile, m.pos))
        (some (setAssoc b.live m.player (m.pos, m.port)))) with
  | .error e =>
    (.error e,
      b.withChange (some (m.tile, m.pos))
        (some (setAssoc b.live m.player (m.pos, m.port))), {})
  | .ok (b2, ev) => (.ok (), b2, ev)

/-- `Board.initial_move_with_scissors`. -/
def initialMoveWithScissors (b : BoardState) (m : InitialMove) : OpResult :=
  atomic (fun s => initialMoveWithScissorsInner s m) b

/-- The body of `Board.initial_move`: validate, then place with scissors. -/
def initialMoveInner (b : BoardState) (m : InitialMove) : OpResult :=
  match validateInitialMove b m with
  | .error e => (.error e, b, {})
  | .ok _ => initialMoveWithScissors b m

/-- `Board.initial_move`. -/
def initialMove (b : BoardState) (m : InitialMove) : OpResult :=
  atomic (fun s => initialMoveInner s m) b

/-- The body of `Board.place_tile_at_index_with_scissors`. -/
def placeTileWithScissorsInner (b : BoardState) (t : Tile) (pos : BoardPosition) :
    OpResult :=
  match moveAllPlayers (b.withTile t pos) with
  | .error e => (.error e, b.withTile t pos, {})
  | .ok (b2, ev) => (.ok (), b2, ev)

/-- `Board.place_tile_at_index_with_scissors`. -/
def placeTileAtIndexWithScissors (b : BoardState) (t : Tile) (pos : BoardPosition) :
    OpResult :=
  atomic (fun s => placeTileWithScissorsInner s t pos) b

/-! ### Claim C1: atomicity -/

theorem atomic_error (f : BoardState → OpResult) (b : BoardState) (e : String)
    (h : (atomic f b).1 = .error e) : (atomic f b).2.1 = b := by
  unfold atomic at h ⊢
  rcases hfb : (f b).1 with e2 | u
  · simp only [hfb]
  · simp only [hfb] at h
    exact Except.noConfusion h

/-- C1: if `initial_move`, `intermediate_move` or
`place_tile_at_index_with_scissors` returns an error, the board state after
the call (tile map and live-agent map alike) is exactly the state before the
call: the `atomic` wrapper restores the pre-call state on every error. -/
theorem c1_atomicity :
    (∀ (b : BoardState) (m : InitialMove) (e : String),
        (initialMove b m).1 = .error e → (initialMove b m).2.1 = b) ∧
      (∀ (b : BoardState) (m : IntermediateMove) (e : String),
        (intermediateMove b m).1 = .error e → (intermediateMove b m).2.1 = b) ∧
      (∀ (b : BoardState) (t : Tile) (pos : BoardPosition) (e : String),
        (placeTileAtIndexWithScissors b t pos).1 = .error e →
          (placeTileAtIndexWithScissors b t pos).2.1 = b) :=
  ⟨fun b m e h => atomic_error (fun s => initialMoveInner s m) b e h,
    fun b m e h => atomic_error (fun s => intermediateMoveInner s m) b e h,
    fun b t pos e h => atomic_error (fun s => placeTileWithScissorsInner s t pos) b e h⟩

/-- C1 witness: an intermediate move by an agent who is not on the (empty)
board is rejected and leaves the state unchanged. -/
theorem c1_witness :
    (intermediateMove {} ⟨plusTile, .white⟩).1 =
        .error "cannot place a tile for player since they are not alive" ∧
      (intermediateMove {} ⟨plusTile, .white⟩).2.1 = {} :=
  ⟨by decide, c1_atomicity.2.1 {} ⟨plusTile, .white⟩
    "cannot place a tile for player since they are not alive" (by decide)⟩

/-! ### Claim C10: termination of path resolution -/

/-- Injective encoding of `(position, port)` pairs into `Fin 800`. -/
def encodePP (pp : BoardPosition × PortId) : Fin 800 :=
  ⟨pp.1.x.val * 80 + pp.1.y.val * 8 + pp.2.val, by
    have hx := pp.1.x.isLt
    have hy := pp.1.y.isLt
    have hp := pp.2.isLt
    omega⟩

theorem encodePP_injective : Function.Injective encodePP := by
  rintro ⟨⟨⟨ax, hax⟩, ⟨ay, hay⟩⟩, ⟨ap, hap⟩⟩ ⟨⟨⟨bx, hbx⟩, ⟨by_, hby⟩⟩, ⟨bp, hbp⟩⟩ h
  have hv : ax * 80 + ay * 8 + ap = bx * 80 + by_ * 8 + bp := congrArg Fin.val h
  simp only [Prod.mk.injEq, BoardPosition.mk.injEq, Fin.mk.injEq]
  omega

/-- A duplicate-free list of `(position, port)` pairs has at most 800
elements. -/
theorem seen_length_le (seen : List (BoardPosition × PortId)) (h : seen.Nodup) :
    seen.length ≤ 800 := by
  have hm : (seen.map encodePP).Nodup := h.map encodePP_injective
  have hle := hm.length_le_card
  rw [List.length_map, Fintype.card_fin] at hle
  exact hle

/-- The walk cannot run out of fuel while the fuel exceeds the number of
`(position, port)` pairs not yet seen: every continuing iteration adds a
fresh pair to `seen`. -/
theorem walkGo_ne_none :
    ∀ (fuel : Nat) (b : BoardState) (c : Color) (seen : List (BoardPosition × PortId)),
      seen.Nodup → 800 < fuel + seen.length → walkGo fuel b c seen ≠ none := by
  intro fuel
  induction fuel with
  | zero =>
    intro b c seen hnd hlt
    exact absurd (seen_length_le seen hnd) (by omega)
  | succ n ih =>
    intro b c seen hnd hlt hnone
    unfold walkGo at hnone
    rcases hl : lookupA b.live c with _ | ⟨pos, port⟩ <;> simp only [hl] at hnone
    · exact Option.noConfusion hnone
    · by_cases hseen : (pos, port) ∈ seen
      · simp [hseen] at hnone
      · simp only [if_neg hseen] at hnone
        rcases hadj : b.calcAdjacent c with e | _ | nextPos <;> simp only [hadj] at hnone
        · exact Option.noConfusion hnone
        · exact Option.noConfusion hnone
        · rcases hti : b.getTile nextPos with _ | nextTile <;> simp only [hti] at hnone
          · exact Option.noConfusion hnone
          · exact ih _ c ((pos, port) :: seen) (List.nodup_cons.2 ⟨hseen, hnd⟩)
              (by simp only [List.length_cons]; omega) hnone

/-! ### Claim C3: loop handling in `intermediate_move` -/

theorem lookupA_removeA_self {K V : Type} [DecidableEq K] (m : List (K × V)) (k : K) :
    lookupA (removeA m k) k = none := by
  induction m with
  | nil => rfl
  | cons kv t ih =>
    by_cases h : kv.1 = k <;> simp [removeA, List.filter, h, lookupA, ih] <;>
      simp [removeA] at ih <;> simpa [lookupA, h] using ih

theorem lookupA_removeA_none {K V : Type} [DecidableEq K] (m : List (K × V)) (k d : K)
    (h : lookupA m k = none) : lookupA (removeA m d) k = none := by
  induction m with
  | nil => rfl
  | cons kv t ih =>
    by_cases hk : kv.1 = k
    · simp [lookupA, hk] at h
    · simp only [lookupA, if_neg hk] at h
      by_cases hd : kv.1 = d <;> simp [removeA, List.filter, hd, lookupA, hk] <;>
        simp [removeA] at ih <;> exact ih h

theorem foldl_removePlayer_board (l : List Color) (b : BoardState) :
    (l.foldl removePlayer b).board = b.board := by
  induction l generalizing b with
  | nil => rfl
  | cons x xs ih => exact ih (removePlayer b x)

theorem foldl_removePlayer_none (l : List Color) (b : BoardState) (c : Color)
    (h : lookupA b.live c = none) : lookupA (l.foldl removePlayer b).live c = none := by
  induction l generalizing b with
  | nil => exact h
  | cons x xs ih => exact ih (removePlayer b x) (lookupA_removeA_none b.live c x h)

theorem foldl_removePlayer_mem (l : List Color) (b : BoardState) (c : Color)
    (h : c ∈ l) : lookupA (l.foldl removePlayer b).live c = none := by
  induction l generalizing b with
  | nil => cases h
  | cons x xs ih =>
    rcases List.mem_cons.1 h with rfl | hxs
    · exact foldl_removePlayer_none xs (removePlayer b c) c (lookupA_removeA_self b.live c)
    · exact ih (removePlayer b x) hxs

theorem atomic_events (f : BoardState → OpResult) (b : BoardState) :
    (atomic f b).2.2 = (f b).2.2 := by
  unfold atomic
  rcases hfb : (f b).1 with e | u <;> simp only [hfb]

theorem atomic_of_ok (f : BoardState → OpResult) (b s : BoardState) (ev : Events)
    (h : f b = (.ok (), s, ev)) : atomic f b = f b := by
  unfold atomic
  rcases hfb : (f b).1 with e | u
  · rw [h] at hfb
    exact Except.noConfusion hfb
  · simp only [hfb]

/-- Case analysis on the body of `intermediate_move`: it either errors with
no events, succeeds with no loop, or succeeds via the loop branch, restoring
the pre-placement state and removing exactly the looping agents. -/
theorem intermediateMoveInner_cases (b : BoardState) (m : IntermediateMove) :
    (∃ e s, intermediateMoveInner b m = (.error e, s, {})) ∨
      (∃ b2 ev, intermediateMoveInner b m = (.ok (), b2, ev) ∧ ev.loops = []) ∨
      (∃ ev, intermediateMoveInner b m = (.ok (), ev.loops.foldl removePlayer b, ev) ∧
        ev.loops ≠ []) := by
  unfold intermediateMoveInner
  rcases validateIntermediateMove b m with e | u
  · exact Or.inl ⟨e, b, rfl⟩
  · rcases b.calcAdjacent m.player with e | _ | pos
    · exact Or.inl ⟨e, b, rfl⟩
    · exact Or.inl ⟨_, b, rfl⟩
    · by_cases hocc : (b.getTile pos).isSome
      · exact Or.inl
          ⟨"cannot place tile since it would be on top of an existing tile", b,
            by simp [hocc]⟩
      · simp only [hocc, if_false, Bool.false_eq_true]
        rcases moveAllPlayers (b.withTile m.tile pos) with e | ⟨b2, ev⟩
        · exact Or.inl ⟨e, b.withTile m.tile pos, rfl⟩
        · by_cases hlp : ev.loops = []
          · exact Or.inr (Or.inl ⟨b2, ev, by simp [hlp], hlp⟩)
          · exact Or.inr (Or.inr ⟨ev, by simp [hlp], hlp⟩)

/-- C3: whenever path resolution inside `intermediate_move` detects a loop
(the emitted loop-event list is nonempty), the call succeeds, every agent
that entered a loop is no longer live afterward, and the tile map afterward
is exactly the tile map before the call — the move's tile was never
committed. -/
theorem c3_loop_handling (b : BoardState) (m : IntermediateMove)
    (h : (intermediateMove b m).2.2.loops ≠ []) :
    (intermediateMove b m).1 = .ok () ∧
      (∀ c ∈ (intermediateMove b m).2.2.loops,
        lookupA (intermediateMove b m).2.1.live c = none) ∧
      (intermediateMove b m).2.1.board = b.board := by
  have hev : (intermediateMove b m).2.2 = (intermediateMoveInner b m).2.2 :=
    atomic_events (fun s => intermediateMoveInner s m) b
  rcases intermediateMoveInner_cases b m with ⟨e, s, hin⟩ | ⟨b2, ev, hin, hlp⟩ |
    ⟨ev, hin, hlp⟩
  · rw [hev, hin] at h
    exact absurd rfl h
  · rw [hev, hin] at h
    exact absurd hlp h
  · have heq : intermediateMove b m = intermediateMoveInner b m :=
      atomic_of_ok (fun s => intermediateMoveInner s m) b _ _ hin
    rw [heq, hin]
    exact ⟨rfl, fun c hc => foldl_removePlayer_mem ev.loops b c hc,
      foldl_removePlayer_board ev.loops b⟩

/-- A two-tile loop configuration: the symmetric tile sits at `(0,0)` with
the white agent on its right-top port; playing the same tile into `(1,0)`
sends the agent around a closed cycle. -/
def loopState : BoardState :=
  { board := [(⟨0, 0⟩, plusTile)], live := [(.white, (⟨0, 0⟩, 2))] }

/-- The intermediate move that completes the loop. -/
def loopMove : IntermediateMove := ⟨plusTile, .white⟩

/-- C3 witness: the loop configuration instantiates the theorem. -/
theorem c3_witness :
    (intermediateMove loopState loopMove).1 = .ok () ∧
      (∀ c ∈ (intermediateMove loopState loopMove).2.2.loops,
        lookupA (intermediateMove loopState loopMove).2.1.live c = none) ∧
      (intermediateMove loopState loopMove).2.1.board = loopState.board :=
  c3_loop_handling loopState loopMove (by decide)

/-! ### Specifications of path resolution, used by claims C2 and C8 -/

theorem lookupA_ne_none_iff_mem {K V : Type} [DecidableEq K] (m : List (K × V)) (k : K) :
    lookupA m k ≠ none ↔ k ∈ m.map Prod.fst := by
  induction m with
  | nil => simp [lookupA]
  | cons kv t ih =>
    by_cases h : kv.1 = k <;> simp [lookupA, h, ih]
    exact fun he => (h he.symm).elim

theorem setAssoc_keys_of_mem {K V : Type} [DecidableEq K] (m : List (K × V)) (k : K)
    (v : V) (h : lookupA m k ≠ none) :
    (setAssoc m k v).map Prod.fst = m.map Prod.fst := by
  induction m with
  | nil => simp [lookupA] at h
  | cons kv t ih =>
    by_cases hk : kv.1 = k
    · simp [setAssoc, hk]
    · simp only [lookupA, if_neg hk] at h
      simp [setAssoc, hk, ih h]

theorem calcAdjacent_of_lookup (s : BoardState) (c : Color) (pos : BoardPosition)
    (port : PortId) (h : lookupA s.live c = some (pos, port)) :
    s.calcAdjacent c = .ok (adjacentPos pos port) := by
  unfold BoardState.calcAdjacent
  rw [h]

/-- A successful walk never errors for a live player, never changes the tile
map, and leaves the live-player key list unchanged (positions move, nobody is
added or removed by the walk itself). -/
theorem walkGo_spec :
    ∀ (fuel : Nat) (b : BoardState) (c : Color) (seen : List (BoardPosition × PortId))
      (r : Except String (BoardState × Bool × Bool)),
      lookupA b.live c ≠ none → walkGo fuel b c seen = some r →
      ∃ b2 rm lp, r = .ok (b2, rm, lp) ∧
        b2.live.map Prod.fst = b.live.map Prod.fst ∧ b2.board = b.board := by
  intro fuel
  induction fuel with
  | zero => intro b c seen r _ hw; exact Option.noConfusion hw
  | succ n ih =>
    intro b c seen r hlive hw
    unfold walkGo at hw
    rcases hl : lookupA b.live c with _ | ⟨pos, port⟩
    · exact absurd hl hlive
    · simp only [hl] at hw
      by_cases hseen : (pos, port) ∈ seen
      · simp only [if_pos hseen, Option.some.injEq] at hw
        exact ⟨b, true, true, hw.symm, rfl, rfl⟩
      · simp only [if_neg hseen, calcAdjacent_of_lookup b c pos port hl] at hw
        rcases hadj : adjacentPos pos port with _ | nextPos <;> simp only [hadj] at hw
        · simp only [Option.some.injEq] at hw
          exact ⟨b, true, false, hw.symm, rfl, rfl⟩
        · rcases hti : b.getTile nextPos with _ | nextTile <;> simp only [hti] at hw
          · simp only [Option.some.injEq] at hw
            exact ⟨b, false, false, hw.symm, rfl, rfl⟩
          · have hlive2 : lookupA
                (b.withLivePlayers (setAssoc b.live c
                  (nextPos, nextTile.getPortConnectedTo (Port.adjoining port)))).live c ≠
                  none := by
              show lookupA (setAssoc b.live c _) c ≠ none
              rw [lookupA_setAssoc_self]
              exact Option.noConfusion
            obtain ⟨b2, rm, lp, hr, hkeys, hboard⟩ := ih _ c _ r hlive2 hw
            refine ⟨b2, rm, lp, hr, ?_, hboard⟩
            rw [hkeys]
            show (setAssoc b.live c _).map Prod.fst = _
            exact setAssoc_keys_of_mem b.live c _ (by rw [hl]; exact Option.noConfusion)

/-- The walk always completes within fuel 801 (see also claim C10). -/
theorem walkGo_total (b : BoardState) (c : Color) :
    ∃ r, walkGo 801 b c [] = some r ∧ movePlayerAlongPath b c = r := by
  rcases hw : walkGo 801 b c [] with _ | r
  · exact absurd hw (walkGo_ne_none 801 b c [] List.nodup_nil (by omega))
  · exact ⟨r, rfl, by unfold movePlayerAlongPath; rw [hw]⟩

/-- `Board._move_player_along_path` for a live player: always ok, tile map
and live-player keys untouched. -/
theorem movePlayerAlongPath_spec (b : BoardState) (c : Color)
    (hlive : lookupA b.live c ≠ none) :
    ∃ b2 rm lp, movePlayerAlongPath b c = .ok (b2, rm, lp) ∧
      b2.live.map Prod.fst = b.live.map Prod.fst ∧ b2.board = b.board := by
  obtain ⟨r, hw, hm⟩ := walkGo_total b c
  obtain ⟨b2, rm, lp, hr, hkeys, hboard⟩ := walkGo_spec 801 b c [] r hlive hw
  exact ⟨b2, rm, lp, by rw [hm, hr], hkeys, hboard⟩

theorem map_fst_filter_key {K V : Type} (l : List (K × V)) (p : K → Bool) :
    (l.filter (fun kv => p kv.1)).map Prod.fst = (l.map Prod.fst).filter p := by
  induction l with
  | nil => rfl
  | cons kv t ih =>
    by_cases h : p kv.1 <;> simp [List.filter, h, ih]

/-- The batch removal at the end of a path-resolution pass filters exactly
the removed players out of the live map. -/
theorem foldl_removePlayer_live (tr : List Color) (b : BoardState) :
    (tr.foldl removePlayer b).live = b.live.filter (fun kv => decide (kv.1 ∉ tr)) := by
  induction tr generalizing b with
  | nil =>
    simp only [List.foldl_nil]
    have hp : (fun kv : Color × (BoardPosition × PortId) =>
        decide (kv.1 ∉ ([] : List Color))) = fun _ => true := by
      funext a
      simp
    rw [hp, List.filter_true]
  | cons x xs ih =>
    simp only [List.foldl_cons]
    rw [ih]
    show (b.live.filter (fun kv => decide (kv.1 ≠ x))).filter _ = _
    rw [List.filter_filter]
    apply List.filter_congr
    intro a _
    by_cases h1 : a.1 = x <;> by_cases h2 : a.1 ∈ xs <;> simp [h1, h2]

/-- The loop of `_move_all_players_along_paths`, specified: it never errors
when the pending players are live; the events collect the accumulators plus
players drawn from the pending list; the tile map is unchanged; and the final
live keys are the original ones minus everybody removed. -/
theorem moveAllGo_spec :
    ∀ (cs : List Color) (b : BoardState) (tr lps : List Color),
      (∀ c ∈ cs, lookupA b.live c ≠ none) →
      ∃ ex2 lp2 b2,
        moveAllGo cs b tr lps = .ok (b2, { loops := lps ++ lp2, exits := tr ++ ex2 }) ∧
          b2.board = b.board ∧
          b2.live.map Prod.fst =
            (b.live.map Prod.fst).filter (fun k => decide (k ∉ tr ++ ex2)) ∧
          (∀ x ∈ ex2, x ∈ cs) ∧ (∀ x ∈ lp2, x ∈ cs) := by
  intro cs
  induction cs with
  | nil =>
    intro b tr lps _
    refine ⟨[], [], tr.foldl removePlayer b, by simp [moveAllGo], ?_, ?_, by simp, by simp⟩
    · exact foldl_removePlayer_board tr b
    · rw [foldl_removePlayer_live]
      have hmf := map_fst_filter_key b.live (fun k => decide (k ∉ tr))
      simp only [List.append_nil]
      exact hmf
  | cons c cs ih =>
    intro b tr lps h
    obtain ⟨b1, rm, lp, hmv, hkeys1, hboard1⟩ :=
      movePlayerAlongPath_spec b c (h c (List.mem_cons_self c cs))
    have h1 : ∀ d ∈ cs, lookupA b1.live d ≠ none := by
      intro d hd
      rw [lookupA_ne_none_iff_mem, hkeys1, ← lookupA_ne_none_iff_mem]
      exact h d (List.mem_cons_of_mem c hd)
    obtain ⟨ex2, lp2, b2, hgo, hboard2, hkeys2, hexsub, hlpsub⟩ :=
      ih b1 (tr ++ if rm then [c] else []) (lps ++ if lp then [c] else []) h1
    refine ⟨(if rm then [c] else []) ++ ex2, (if lp then [c] else []) ++ lp2, b2, ?_, ?_, ?_, ?_, ?_⟩
    · show moveAllGo (c :: cs) b tr lps = _
      unfold moveAllGo
      simp only [hmv]
      rw [hgo]
      simp [List.append_assoc]
    · rw [hboard2, hboard1]
    · rw [hkeys2, hkeys1]
      simp only [List.append_assoc]
    · intro x hx
      rcases List.mem_append.1 hx with hx | hx
      · rcases rm <;> simp_all
      · exact List.mem_cons_of_mem c (hexsub x hx)
    · intro x hx
      rcases List.mem_append.1 hx with hx | hx
      · rcases lp <;> simp_all
      · exact List.mem_cons_of_mem c (hlpsub x hx)

/-- `Board._move_all_players_along_paths` never errors; it preserves the tile
map and removes exactly the exited players from the live map. -/
theorem moveAllPlayers_spec (b : BoardState) :
    ∃ b2 ev, moveAllPlayers b = .ok (b2, ev) ∧ b2.board = b.board ∧
      b2.live.map Prod.fst =
        (b.live.map Prod.fst).filter (fun k => decide (k ∉ ev.exits)) := by
  have h : ∀ c ∈ (b.live.map (fun cv => cv.1) : List Color), lookupA b.live c ≠ none := by
    intro c hc
    rw [lookupA_ne_none_iff_mem]
    exact hc
  obtain ⟨ex2, lp2, b2, hgo, hboard, hkeys, _, _⟩ := moveAllGo_spec _ b [] [] h
  exact ⟨b2, { loops := lp2, exits := ex2 }, by simpa [moveAllPlayers] using hgo, hboard,
    by simpa using hkeys⟩

/-! ### The rule checker (src/Common/rules.py) -/

def EXPECTED_TILE_COUNT_INITIAL_MOVE : Nat := 3

def EXPECTED_TILE_COUNT_INTERMEDIATE_MOVE : Nat := 2

def LOOP_ERROR : String := "loopy move when this does not create a loop"

def SUICIDE_ERROR : String := "suicidal move when this does not cause a suicide"

/-- `RuleChecker.check_valid_move_params`: the expected number of choices was
offered and the chosen tile is among them (membership under Tile equality,
i.e. modulo rotation). -/
def checkValidMoveParams (tileChoices : List Tile) (tile : Tile) (expected : Nat) :
    Except String Unit :=
  if tileChoices.length ≠ expected then
    .error "cannot validate move with the wrong number of tile choices"
  else if ¬ tileChoices.any (fun c => decide (tileEq tile c)) then
    .error "tile is not in the list of tiles the player was given"
  else .ok ()

/-- `RuleChecker.move_creates_loop`: simulate the move on a scratch board;
true iff at least one agent entered a loop. -/
def moveCreatesLoop (s : BoardState) (m : IntermediateMove) : Except String Bool :=
  match intermediateMove s m with
  | (.error e, _, _) => .error e
  | (.ok _, _, ev) => .ok (decide (0 < ev.loops.length))

/-- `RuleChecker.is_move_suicidal`: simulate the move on a scratch board;
true iff the mover is no longer live afterward and nobody entered a loop. -/
def isMoveSuicidal (s : BoardState) (m : IntermediateMove) : Except String Bool :=
  if (lookupA s.live m.player).isNone then
    .error "player is not alive thus the move cannot be suicidal"
  else
    match intermediateMove s m with
    | (.error e, _, _) => .error e
    | (.ok _, b2, ev) =>
      .ok (decide (lookupA b2.live m.player = none) && decide (ev.loops.length ≤ 0))

/-- `RuleChecker.is_move_illegal`: suicide or loop, ignoring the offered
choices. -/
def isMoveIllegal (s : BoardState) (m : IntermediateMove) : Except String Bool :=
  match isMoveSuicidal s m with
  | .error e => .error e
  | .ok true => .ok true
  | .ok false => moveCreatesLoop s m

/-- The inner double loop of `RuleChecker.is_legal_for_condition`, over the
offered tiles and, for each, its four rotations (flattened in iteration
order): stop with an error at the first rotation that avoids the condition,
propagate simulation errors, accept when every rotation triggers it. -/
def scanRotations (check : BoardState → IntermediateMove → Except String Bool)
    (s : BoardState) (player : Color) (errMsg : String) :
    List Tile → Except String Unit
  | [] => .ok ()
  | rt :: rest =>
    match check s ⟨rt, player⟩ with
    | .error e => .error e
    | .ok false => .error errMsg
    | .ok true => scanRotations check s player errMsg rest

/-- `RuleChecker.is_legal_for_condition`: a move triggering the condition is
legal only if every rotation of every offered tile also triggers it. -/
def isLegalForCondition (check : BoardState → IntermediateMove → Except String Bool)
    (s : BoardState) (tileChoices : List Tile) (m : IntermediateMove) (errMsg : String) :
    Except String Unit :=
  match check s m with
  | .error e => .error e
  | .ok false => .ok ()
  | .ok true => scanRotations check s m.player errMsg (tileChoices.flatMap Tile.allRotations)

/-- `RuleChecker.validate_move`: structural checks, then the live check, then
the forced-loop check, then the forced-suicide check. -/
def validateMove (s : BoardState) (tileChoices : List Tile) (m : IntermediateMove) :
    Except String Unit :=
  match checkValidMoveParams tileChoices m.tile EXPECTED_TILE_COUNT_INTERMEDIATE_MOVE with
  | .error e => .error e
  | .ok _ =>
    match validateIntermediateMove s m with
    | .error e => .error e
    | .ok _ =>
      match isLegalForCondition moveCreatesLoop s tileChoices m LOOP_ERROR with
      | .error e => .error e
      | .ok _ =>
        match isLegalForCondition isMoveSuicidal s tileChoices m SUICIDE_ERROR with
        | .error e => .error e
        | .ok _ => .ok ()

/-- `RuleChecker.validate_initial_move`: structural checks, then the board's
physical validation on a scratch copy. -/
def ruleValidateInitialMove (s : BoardState) (tileChoices : List Tile) (m : InitialMove) :
    Except String Unit :=
  match checkValidMoveParams tileChoices m.tile EXPECTED_TILE_COUNT_INITIAL_MOVE with
  | .error e => .error e
  | .ok _ => validateInitialMove s m

/-! ### Claim C6: suicide is mover-dead and no loop -/

/-- C6: when the named agent is live and the simulation of the intermediate
move on a scratch board succeeds, `is_move_suicidal` answers true exactly
when the acting agent is no longer live after the simulated move and no
agent entered a loop during it; in particular a loop-caused removal is never
classified as suicide. -/
theorem c6_is_move_suicidal (s : BoardState) (m : IntermediateMove)
    (b2 : BoardState) (ev : Events)
    (hlive : lookupA s.live m.player ≠ none)
    (hsim : intermediateMove s m = (.ok (), b2, ev)) :
    isMoveSuicidal s m = .ok true ↔
      (lookupA b2.live m.player = none ∧ ev.loops = []) := by
  have hn : (lookupA s.live m.player).isNone = false := by
    rcases hx : lookupA s.live m.player with _ | v
    · exact absurd hx hlive
    · rfl
  unfold isMoveSuicidal
  rw [hn, hsim]
  simp [List.length_eq_zero, Nat.le_zero]

/-- The board for the C6 witness: scenery tile at `(0,0)`, white resting on
its right-top port. -/
def suicideState : BoardState :=
  { board := [(⟨0, 0⟩, plusTile)], live := [(.white, (⟨0, 0⟩, 2))] }

/-- A tile that routes the incoming agent straight off the top edge. -/
def escTile : Tile := Tile.ofEdges [(0, 7), (1, 2), (3, 4), (5, 6)]

/-- The suicidal move for the C6 witness. -/
def suicideMove : IntermediateMove := ⟨escTile, .white⟩

/-- C6 witness: the suicide configuration instantiates the theorem; the
simulation ends with white off the board and no loop. -/
theorem c6_witness :
    isMoveSuicidal suicideState suicideMove = .ok true ↔
      (lookupA (BoardState.live
          { board := [(⟨0, 0⟩, plusTile), (⟨1, 0⟩, escTile)], live := [] })
          Color.white = none ∧
        Events.loops { loops := [], exits := [.white] } = []) :=
  c6_is_move_suicidal suicideState suicideMove
    { board := [(⟨0, 0⟩, plusTile), (⟨1, 0⟩, escTile)], live := [] }
    { loops := [], exits := [.white] } (by decide) (by decide)

/-! ### Claim C2: the forced-move doctrine -/

theorem opResult_eta (r : OpResult) (h : r.1 = .ok ()) : r = (.ok (), r.2.1, r.2.2) := by
  rcases r with ⟨r1, r2, r3⟩
  subst h
  rfl

theorem atomic_fst (f : BoardState → OpResult) (b : BoardState) :
    (atomic f b).1 = (f b).1 := by
  unfold atomic
  rcases hfb : (f b).1 with e | u <;> simp only [hfb]

theorem validateIntermediateMove_ok (s : BoardState) (m : IntermediateMove)
    (h : validateIntermediateMove s m = .ok ()) : lookupA s.live m.player ≠ none := by
  unfold validateIntermediateMove at h
  by_cases hn : (lookupA s.live m.player).isNone
  · rw [if_pos hn] at h
    exact Except.noConfusion h
  · intro hnone
    exact hn (by rw [hnone]; rfl)

theorem isNone_false_of_ne_none {V : Type} {o : Option V} (h : o ≠ none) :
    o.isNone = false := by
  rcases ho : o with _ | v
  · exact absurd ho h
  · rfl

/-- The body of `intermediate_move` succeeds exactly when the mover is live,
the cell ahead of it is on the board and that cell is empty — conditions that
do not depend on the tile being placed. -/
theorem intermediateMoveInner_ok_iff (s : BoardState) (m : IntermediateMove) :
    (∃ b2 ev, intermediateMoveInner s m = (.ok (), b2, ev)) ↔
      (lookupA s.live m.player ≠ none ∧
        ∃ pos, s.calcAdjacent m.player = .ok (some pos) ∧ s.getTile pos = none) := by
  constructor
  · rintro ⟨b2, ev, hin⟩
    unfold intermediateMoveInner at hin
    rcases hval : validateIntermediateMove s m with e | u <;> simp only [hval] at hin
    · simp at hin
    · cases u
      have hlive := validateIntermediateMove_ok s m hval
      rcases hadj : s.calcAdjacent m.player with e | _ | pos <;> simp only [hadj] at hin
      · simp at hin
      · simp at hin
      · by_cases hocc : (s.getTile pos).isSome
        · simp [hocc] at hin
        · have hgt : s.getTile pos = none := by
            rcases hg : s.getTile pos with _ | t
            · rfl
            · rw [hg] at hocc
              simp at hocc
          exact ⟨hlive, pos, rfl, hgt⟩
  · rintro ⟨hlive, pos, hadj, hti⟩
    have hval : validateIntermediateMove s m = .ok () := by
      unfold validateIntermediateMove
      rw [isNone_false_of_ne_none hlive]
      simp
    unfold intermediateMoveInner
    rw [hval, hadj]
    simp only [hti, Option.isSome_none, Bool.false_eq_true, if_false]
    obtain ⟨b2, ev, hma, _, _⟩ := moveAllPlayers_spec (s.withTile m.tile pos)
    rw [hma]
    by_cases hlp : ev.loops = []
    · exact ⟨b2, ev, by simp [hlp]⟩
    · exact ⟨ev.loops.foldl removePlayer s, ev, by simp [hlp]⟩

theorem intermediateMove_ok_iff (s : BoardState) (m : IntermediateMove) :
    (∃ b2 ev, intermediateMove s m = (.ok (), b2, ev)) ↔
      (∃ b2 ev, intermediateMoveInner s m = (.ok (), b2, ev)) := by
  constructor
  · rintro ⟨b2, ev, h⟩
    have h1 : (intermediateMoveInner s m).1 = .ok () := by
      have hf := atomic_fst (fun t => intermediateMoveInner t m) s
      calc (intermediateMoveInner s m).1 = (intermediateMove s m).1 := hf.symm
        _ = .ok () := by rw [h]
    exact ⟨(intermediateMoveInner s m).2.1, (intermediateMoveInner s m).2.2,
      opResult_eta _ h1⟩
  · rintro ⟨b2, ev, h⟩
    refine ⟨b2, ev, ?_⟩
    unfold intermediateMove
    rw [atomic_of_ok (fun t => intermediateMoveInner t m) s b2 ev h]
    exact h

/-- Whether the simulation of an intermediate move succeeds does not depend
on the chosen tile. -/
theorem sim_ok_any_tile (s : BoardState) (p : Color) (t t2 : Tile)
    (h : ∃ b2 ev, intermediateMove s ⟨t, p⟩ = (.ok (), b2, ev)) :
    ∃ b2 ev, intermediateMove s ⟨t2, p⟩ = (.ok (), b2, ev) := by
  rw [intermediateMove_ok_iff, intermediateMoveInner_ok_iff] at h ⊢
  exact h

theorem mcl_of_sim (s : BoardState) (m : IntermediateMove) (b2 : BoardState) (ev : Events)
    (h : intermediateMove s m = (.ok (), b2, ev)) :
    moveCreatesLoop s m = .ok (decide (0 < ev.loops.length)) := by
  unfold moveCreatesLoop
  rw [h]

theorem mcl_sim (s : BoardState) (m : IntermediateMove) (v : Bool)
    (h : moveCreatesLoop s m = .ok v) :
    ∃ b2 ev, intermediateMove s m = (.ok (), b2, ev) ∧
      v = decide (0 < ev.loops.length) := by
  unfold moveCreatesLoop at h
  rcases him : intermediateMove s m with ⟨r1, b2, ev⟩
  rw [him] at h
  rcases r1 with e | u
  · simp at h
  · cases u
    simp only [Except.ok.injEq] at h
    exact ⟨b2, ev, rfl, h.symm⟩

theorem ims_of_sim (s : BoardState) (m : IntermediateMove) (b2 : BoardState) (ev : Events)
    (hlive : lookupA s.live m.player ≠ none)
    (h : intermediateMove s m = (.ok (), b2, ev)) :
    isMoveSuicidal s m =
      .ok (decide (lookupA b2.live m.player = none) && decide (ev.loops.length ≤ 0)) := by
  unfold isMoveSuicidal
  rw [isNone_false_of_ne_none hlive]
  simp only [Bool.false_eq_true, if_false, h]

theorem ims_sim (s : BoardState) (m : IntermediateMove) (v : Bool)
    (h : isMoveSuicidal s m = .ok v) :
    ∃ b2 ev, intermediateMove s m = (.ok (), b2, ev) ∧
      v = (decide (lookupA b2.live m.player = none) && decide (ev.loops.length ≤ 0)) := by
  unfold isMoveSuicidal at h
  by_cases hn : (lookupA s.live m.player).isNone
  · rw [if_pos hn] at h
    exact Except.noConfusion h
  · rw [if_neg hn] at h
    rcases him : intermediateMove s m with ⟨r1, b2, ev⟩
    rw [him] at h
    rcases r1 with e | u
    · simp at h
    · cases u
      simp only [Except.ok.injEq] at h
      exact ⟨b2, ev, rfl, h.symm⟩

theorem scanRotations_spec (check : BoardState → IntermediateMove → Except String Bool)
    (s : BoardState) (player : Color) (msg : String) :
    ∀ rts : List Tile, (∀ rt ∈ rts, ∃ v, check s ⟨rt, player⟩ = .ok v) →
      ((scanRotations check s player msg rts).isOk = false ↔
        ∃ rt ∈ rts, check s ⟨rt, player⟩ = .ok false) := by
  intro rts
  induction rts with
  | nil =>
    intro _
    simp [scanRotations, Except.isOk, Except.toBool]
  | cons rt rest ih =>
    intro h
    obtain ⟨v, hv⟩ := h rt (List.mem_cons_self rt rest)
    have hrest := ih (fun x hx => h x (List.mem_cons_of_mem rt hx))
    unfold scanRotations
    rw [hv]
    cases v
    · exact iff_of_true rfl ⟨rt, List.mem_cons_self rt rest, hv⟩
    · constructor
      · intro hlhs
        obtain ⟨x, hx, hcx⟩ := hrest.1 hlhs
        exact ⟨x, List.mem_cons_of_mem rt hx, hcx⟩
      · rintro ⟨x, hx, hcx⟩
        rcases List.mem_cons.1 hx with rfl | hx2
        · rw [hv] at hcx
          simp at hcx
        · exact hrest.2 ⟨x, hx2, hcx⟩

theorem isLegalForCondition_triggered
    (check : BoardState → IntermediateMove → Except String Bool)
    (s : BoardState) (choices : List Tile) (m : IntermediateMove) (msg : String)
    (hc : check s m = .ok true)
    (halt : ∀ rt ∈ choices.flatMap Tile.allRotations, ∃ v, check s ⟨rt, m.player⟩ = .ok v) :
    ((isLegalForCondition check s choices m msg).isOk = false ↔
      ∃ rt ∈ choices.flatMap Tile.allRotations, check s ⟨rt, m.player⟩ = .ok false) := by
  unfold isLegalForCondition
  simp only [hc]
  exact scanRotations_spec check s m.player msg _ halt

theorem isLegalForCondition_pass
    (check : BoardState → IntermediateMove → Except String Bool)
    (s : BoardState) (choices : List Tile) (m : IntermediateMove) (msg : String)
    (hc : check s m = .ok false) :
    isLegalForCondition check s choices m msg = .ok () := by
  unfold isLegalForCondition
  simp only [hc]

/-- C2: under the structural preconditions (right number of offered tiles,
chosen tile among them, mover live), when the chosen tile triggers the loop
condition, `validate_move` rejects exactly when some rotation of some offered
tile avoids a loop (so when every rotation of every offered tile loops, the
chosen move is accepted); and when the chosen tile triggers the suicide
condition (and not the loop condition), `validate_move` rejects exactly when
some rotation of some offered tile avoids suicide.  The two categories are
checked independently, loop first. -/
theorem c2_forced_move_doctrine (s : BoardState) (choices : List Tile)
    (m : IntermediateMove)
    (hparams : checkValidMoveParams choices m.tile EXPECTED_TILE_COUNT_INTERMEDIATE_MOVE =
      .ok ())
    (hval : validateIntermediateMove s m = .ok ()) :
    (moveCreatesLoop s m = .ok true →
      ((validateMove s choices m).isOk = false ↔
        ∃ t ∈ choices, ∃ rt ∈ t.allRotations,
          moveCreatesLoop s ⟨rt, m.player⟩ = .ok false)) ∧
      (moveCreatesLoop s m = .ok false → isMoveSuicidal s m = .ok true →
        ((validateMove s choices m).isOk = false ↔
          ∃ t ∈ choices, ∃ rt ∈ t.allRotations,
            isMoveSuicidal s ⟨rt, m.player⟩ = .ok false)) := by
  have hlive := validateIntermediateMove_ok s m hval
  have hconv : ∀ P : Tile → Prop,
      ((∃ rt ∈ choices.flatMap Tile.allRotations, P rt) ↔
        ∃ t ∈ choices, ∃ rt ∈ t.allRotations, P rt) := by
    intro P
    constructor
    · rintro ⟨rt, hmem, hP⟩
      obtain ⟨t, ht, hrt⟩ := List.mem_flatMap.1 hmem
      exact ⟨t, ht, rt, hrt, hP⟩
    · rintro ⟨t, ht, rt, hrt, hP⟩
      exact ⟨rt, List.mem_flatMap.2 ⟨t, ht, hrt⟩, hP⟩
  constructor
  · intro hmc
    obtain ⟨b2, ev, hsim, hv⟩ := mcl_sim s m true hmc
    have hsimany : ∀ t2 : Tile,
        ∃ b3 ev3, intermediateMove s ⟨t2, m.player⟩ = (.ok (), b3, ev3) :=
      fun t2 => sim_ok_any_tile s m.player m.tile t2 ⟨b2, ev, hsim⟩
    have halt : ∀ rt ∈ choices.flatMap Tile.allRotations,
        ∃ v, moveCreatesLoop s ⟨rt, m.player⟩ = .ok v := by
      intro rt _
      obtain ⟨b3, ev3, hs3⟩ := hsimany rt
      exact ⟨_, mcl_of_sim s ⟨rt, m.player⟩ b3 ev3 hs3⟩
    have hloopiff := isLegalForCondition_triggered moveCreatesLoop s choices m
      LOOP_ERROR hmc halt
    have hlen : 0 < ev.loops.length := of_decide_eq_true hv.symm
    have hsui : isMoveSuicidal s m = .ok false := by
      have hd : decide (ev.loops.length ≤ 0) = false := by
        rw [decide_eq_false_iff_not]
        omega
      rw [ims_of_sim s m b2 ev hlive hsim, hd, Bool.and_false]
    have hsuipass := isLegalForCondition_pass isMoveSuicidal s choices m
      SUICIDE_ERROR hsui
    rcases hscan : isLegalForCondition moveCreatesLoop s choices m LOOP_ERROR with e | u
    · have hvm : validateMove s choices m = .error e := by
        unfold validateMove
        simp only [hparams, hval, hscan]
      rw [hvm]
      exact iff_of_true rfl ((hconv _).1 (hloopiff.1 (by rw [hscan]; rfl)))
    · have hvm : validateMove s choices m = .ok () := by
        unfold validateMove
        simp only [hparams, hval, hscan, hsuipass]
      rw [hvm]
      refine iff_of_false (by simp [Except.isOk, Except.toBool]) (fun hEx => ?_)
      have hok := hloopiff.2 ((hconv _).2 hEx)
      rw [hscan] at hok
      simp [Except.isOk, Except.toBool] at hok
  · intro hmc hms
    obtain ⟨b2, ev, hsim, _⟩ := ims_sim s m true hms
    have hsimany : ∀ t2 : Tile,
        ∃ b3 ev3, intermediateMove s ⟨t2, m.player⟩ = (.ok (), b3, ev3) :=
      fun t2 => sim_ok_any_tile s m.player m.tile t2 ⟨b2, ev, hsim⟩
    have halt : ∀ rt ∈ choices.flatMap Tile.allRotations,
        ∃ v, isMoveSuicidal s ⟨rt, m.player⟩ = .ok v := by
      intro rt _
      obtain ⟨b3, ev3, hs3⟩ := hsimany rt
      exact ⟨_, ims_of_sim s ⟨rt, m.player⟩ b3 ev3 hlive hs3⟩
    have hsuiff := isLegalForCondition_triggered isMoveSuicidal s choices m
      SUICIDE_ERROR hms halt
    have hlooppass := isLegalForCondition_pass moveCreatesLoop s choices m
      LOOP_ERROR hmc
    rcases hscan : isLegalForCondition isMoveSuicidal s choices m SUICIDE_ERROR with e | u
    · have hvm : validateMove s choices m = .error e := by
        unfold validateMove
        simp only [hparams, hval, hlooppass, hscan]
      rw [hvm]
      exact iff_of_true rfl ((hconv _).1 (hsuiff.1 (by rw [hscan]; rfl)))
    · have hvm : validateMove s choices m = .ok () := by
        unfold validateMove
        simp only [hparams, hval, hlooppass, hscan]
      rw [hvm]
      refine iff_of_false (by simp [Except.isOk, Except.toBool]) (fun hEx => ?_)
      have hok := hsuiff.2 ((hconv _).2 hEx)
      rw [hscan] at hok
      simp [Except.isOk, Except.toBool] at hok

/-- The offered tiles for the C2 witness. -/
def c2Choices : List Tile := [plusTile, escTile]

/-- C2 witness: the forced-move theorem instantiated on the loop
configuration, where the chosen tile is among the two offered and the mover
is live. -/
theorem c2_witness :
    (moveCreatesLoop loopState loopMove = .ok true →
      ((validateMove loopState c2Choices loopMove).isOk = false ↔
        ∃ t ∈ c2Choices, ∃ rt ∈ t.allRotations,
          moveCreatesLoop loopState ⟨rt, loopMove.player⟩ = .ok false)) ∧
      (moveCreatesLoop loopState loopMove = .ok false →
        isMoveSuicidal loopState loopMove = .ok true →
        ((validateMove loopState c2Choices loopMove).isOk = false ↔
          ∃ t ∈ c2Choices, ∃ rt ∈ t.allRotations,
            isMoveSuicidal loopState ⟨rt, loopMove.player⟩ = .ok false)) :=
  c2_forced_move_doctrine loopState c2Choices loopMove (by decide) (by decide)

/-- C10: path resolution terminates.  From the fuel bound 801 (one more than
the 100 * 8 possible `(position, port)` pairs) the per-player walk of
`Board._move_player_along_path` always completes — the out-of-fuel branch of
the embedding is unreachable, for every board state and every agent. -/
theorem c10_path_resolution_terminates (b : BoardState) (c : Color) :
    ∃ r, walkGo 801 b c [] = some r ∧ movePlayerAlongPath b c = r := by
  rcases hw : walkGo 801 b c [] with _ | r
  · exact absurd hw (walkGo_ne_none 801 b c [] List.nodup_nil (by omega))
  · exact ⟨r, rfl, by unfold movePlayerAlongPath; rw [hw]⟩

/-! ### The referee (src/Admin/referee.py)

Agent behaviors are pure functions; a raised exception, an explicit failure
result or a timeout in `generate_first_move` / `generate_move` all reach the
referee as a failed call and are modelled as an error result.  The roster
notifications (`set_color`, `set_players`) carry no game state in the
embedding.  Python object identity, which `set_players` uses to detect
duplicate agents, is modelled by a `pid` tag. -/

structure PlayerBehavior where
  pid : Nat
  genFirst : List Tile → BoardState → Except String (BoardPosition × Tile × PortId)
  genMove : List Tile → BoardState → Except String Tile

/-- The referee's setup state (`_players`, `_rule_checker`, `_tile_iterator`,
`_cheaters`, `_leaderboard`).  The rule checker is stateless in the source, so
only its identity is tracked; the tile iterator is an infinite stream. -/
structure Referee where
  players : List (Color × PlayerBehavior) := []
  ruleChecker : Option Nat := none
  tileIterator : Option (Nat → Tile) := none
  cheaters : List Color := []
  leaderboard : List (List Color) := []

/-- `Referee.set_players`: at most once, 3 to 5 players, no duplicates;
assigns the first colors of the palette in order. -/
def setPlayers (ref : Referee) (ps : List PlayerBehavior) :
    Except String (Referee × List Color) :=
  if ref.players.isEmpty = false then
    .error "players have already been set for this game"
  else if ps.length < 3 ∨ 5 < ps.length then
    .error "there must be between 3 and 5 players"
  else if ¬ (ps.map (fun p => p.pid)).Nodup then
    .error "the given set of players contains duplicates"
  else
    .ok ({ ref with players := (AllColors.take ps.length).zip ps },
      AllColors.take ps.length)

/-- `Referee.set_rule_checker`: a plain assignment, no already-set check. -/
def setRuleChecker (ref : Referee) (rc : Nat) : Referee :=
  { ref with ruleChecker := some rc }

/-- `Referee.set_tile_iterator`: a plain assignment, no already-set check. -/
def setTileIterator (ref : Referee) (it : Nat → Tile) : Referee :=
  { ref with tileIterator := some it }

/-- The in-match state threaded through the phases. -/
structure GameSt where
  board : BoardState
  players : List (Color × PlayerBehavior)
  cheaters : List Color
  leaderboard : List (List Color)
  stream : Nat → Tile
  cursor : Nat

/-- `self._cheaters.add(color)` (a set add). -/
def addCheater (cheaters : List Color) (c : Color) : List Color :=
  if c ∈ cheaters then cheaters else cheaters ++ [c]

/-- `Referee._get_tiles(n)`: draw the next `n` tiles from the stream. -/
def drawTiles (st : GameSt) (n : Nat) : List Tile × GameSt :=
  ((List.range n).map (fun i => st.stream (st.cursor + i)),
    { st with cursor := st.cursor + n })

/-- The keys of the live-player map. -/
def liveColors (b : BoardState) : List Color := b.live.map (fun cv => cv.1)

/-- `Referee._remove_cheaters`: delete every cheater from the roster and from
the board. -/
def removeCheatersSt (st : GameSt) : GameSt :=
  { st with
    players := st.players.filter (fun cp => decide (cp.1 ∉ st.cheaters)),
    board := st.cheaters.foldl removePlayer st.board }

/-- `Referee._get_check_initial_move`: ask the agent for its initial
placement; a failed call marks it a cheater and skips it (`.ok (_, none)`);
a rule-invalid answer marks it a cheater and then calls `.error()` on an ok
`Result`, raising `ResultMisuseException` — the raise aborts `run_game` and
is embedded as an error result. -/
def getCheckInitialMove (st : GameSt) (c : Color) (p : PlayerBehavior)
    (tiles : List Tile) : Except String (GameSt × Option InitialMove) :=
  match p.genFirst tiles st.board with
  | .error _ => .ok ({ st with cheaters := addCheater st.cheaters c }, none)
  | .ok (pos, tile, port) =>
    match ruleValidateInitialMove st.board tiles ⟨pos, tile, port, c⟩ with
    | .error _ =>
      .error "called error() on a Result containing a value"
    | .ok _ => .ok (st, some ⟨pos, tile, port, c⟩)

/-- The loop of `Referee._run_game_initial_turns`: offer 3 tiles to each
agent in roster order, apply valid placements, skip cheaters; after the full
pass remove all cheaters in one batch. -/
def initialTurnsGo : List (Color × PlayerBehavior) → GameSt → Except String GameSt
  | [], st => .ok (removeCheatersSt st)
  | (c, p) :: rest, st =>
    match getCheckInitialMove (drawTiles st 3).2 c p (drawTiles st 3).1 with
    | .error e => .error e
    | .ok (st2, none) => initialTurnsGo rest st2
    | .ok (st2, some mv) =>
      match initialMove st2.board mv with
      | (.error e, _, _) => .error e
      | (.ok _, b2, _) => initialTurnsGo rest { st2 with board := b2 }

/-- `Referee._get_check_intermediate_move`: ask the agent for a tile; a
failed call or a rule-invalid move marks it a cheater and skips it. -/
def getCheckIntermediateMove (st : GameSt) (c : Color) (p : PlayerBehavior)
    (tiles : List Tile) : GameSt × Option IntermediateMove :=
  match p.genMove tiles st.board with
  | .error _ => ({ st with cheaters := addCheater st.cheaters c }, none)
  | .ok tile =>
    match validateMove st.board tiles ⟨tile, c⟩ with
    | .error _ => ({ st with cheaters := addCheater st.cheaters c }, none)
    | .ok _ => (st, some ⟨tile, c⟩)

/-- The loop of `Referee._run_game_single_round`: each still-live roster
agent in turn draws 2 tiles and plays; agents killed earlier in the same
pass are skipped. -/
def roundGo : List (Color × PlayerBehavior) → GameSt → Except String GameSt
  | [], st => .ok st
  | (c, p) :: rest, st =>
    if (lookupA st.board.live c).isNone then roundGo rest st
    else
      match getCheckIntermediateMove (drawTiles st 2).2 c p (drawTiles st 2).1 with
      | (st2, none) => roundGo rest st2
      | (st2, some mv) =>
        match intermediateMove st2.board mv with
        | (.error e, _, _) => .error e
        | (.ok _, b2, _) => roundGo rest { st2 with board := b2 }

/-- `Referee._handle_players_lost_in_round` (together with the surrounding
bookkeeping of `_run_game_single_round`): agents alive at the start of the
round but not at its end and not cheaters form this round's tier; then the
cheater batch is removed. -/
def handlePlayersLostInRound (st : GameSt) (aliveStart : List Color) : GameSt :=
  let killed := aliveStart.filter
    (fun c => decide (c ∉ liveColors st.board) && decide (c ∉ st.cheaters))
  removeCheatersSt
    { st with
      leaderboard := st.leaderboard ++ [killed],
      players := st.players.filter (fun cp => decide (cp.1 ∉ killed)) }

/-- `Referee._run_game_single_round`. -/
def runRound (st : GameSt) : Except String GameSt :=
  match roundGo st.players st with
  | .error e => .error e
  | .ok st2 => .ok (handlePlayersLostInRound st2 (liveColors st.board))

/-- The `while` loop of `Referee.run_game`, with fuel: stop once at most one
agent is live, else run a round.  Exhausted fuel is an error result, so a
match that completes (`run_game` returns ok) never hit it. -/
def roundsLoop : Nat → GameSt → Except String GameSt
  | fuel, st =>
    if st.board.live.length ≤ 1 then .ok st
    else
      match fuel with
      | 0 => .error "round fuel exhausted"
      | f + 1 =>
        match runRound st with
        | .error e => .error e
        | .ok st2 => roundsLoop f st2

/-- `Referee._generate_game_result`: append the last agents standing, order
tiers from latest to earliest, drop empty tiers, report cheaters
separately. -/
def generateGameResult (st : GameSt) : List (List Color) × List Color :=
  ((st.leaderboard ++ [liveColors st.board]).reverse.filter (fun x => decide (x ≠ [])),
    st.cheaters)

/-- `Referee.run_game`: refuse to start without roster, rule checker and
tile source; run the placement phase, then rounds until at most one agent
remains, then assemble the result. -/
def runGame (ref : Referee) (fuel : Nat) :
    Except String (List (List Color) × List Color) :=
  if ref.players.isEmpty then .error "must add players to this referee"
  else
    match ref.ruleChecker with
    | none => .error "must add a rule checker to this referee"
    | some _ =>
      match ref.tileIterator with
      | none => .error "must add a tile iterator to this referee"
      | some stream =>
        match initialTurnsGo ref.players
            { board := {}, players := ref.players, cheaters := ref.cheaters,
              leaderboard := ref.leaderboard, stream := stream, cursor := 0 } with
        | .error e => .error e
        | .ok st1 =>
          match roundsLoop fuel st1 with
          | .error e => .error e
          | .ok st2 => .ok (generateGameResult st2)

/-! ### Claim C9: the setup contract -/

/-- C9 (counterexample): `set_rule_checker` and `set_tile_iterator` perform
no already-set check — a second call simply succeeds and overwrites the
first, so "each settable at most once" fails for them. -/
theorem c9_counterexample :
    (setRuleChecker (setRuleChecker {} 1) 2).ruleChecker = some 2 ∧
      (setTileIterator (setTileIterator {} (fun _ => plusTile))
          (fun _ => escTile)).tileIterator = some (fun _ => escTile) :=
  ⟨rfl, rfl⟩

/-- C9 (amended): `set_players` errors exactly when the roster was already
set, has fewer than 3 or more than 5 agents, or contains duplicates (so the
roster is settable at most once), and `run_game` errors when the roster, the
rule checker or the tile source has not been set; but the rule-checker and
tile-source setters perform no already-set check — a repeated call silently
replaces the earlier value. -/
theorem c9_setup_contract :
    (∀ (ref : Referee) (ps : List PlayerBehavior),
      (setPlayers ref ps).isOk = false ↔
        (ref.players ≠ [] ∨ ps.length < 3 ∨ 5 < ps.length ∨
          ¬ (ps.map (fun p => p.pid)).Nodup)) ∧
      (∀ (ref : Referee) (fuel : Nat),
        ref.players = [] ∨ ref.ruleChecker = none ∨ ref.tileIterator = none →
          (runGame ref fuel).isOk = false) := by
  constructor
  · intro ref ps
    unfold setPlayers
    by_cases h1 : ref.players.isEmpty = false
    · rw [if_pos h1]
      refine iff_of_true rfl (Or.inl ?_)
      intro hnil
      rw [hnil] at h1
      simp at h1
    · rw [if_neg h1]
      have h1b : ref.players = [] := by
        rw [← List.isEmpty_iff]
        revert h1
        cases ref.players.isEmpty <;> simp
      by_cases h2 : ps.length < 3 ∨ 5 < ps.length
      · rw [if_pos h2]
        refine iff_of_true rfl ?_
        rcases h2 with h2 | h2
        · exact Or.inr (Or.inl h2)
        · exact Or.inr (Or.inr (Or.inl h2))
      · rw [if_neg h2]
        by_cases h3 : ¬ (ps.map (fun p => p.pid)).Nodup
        · rw [if_pos h3]
          exact iff_of_true rfl (Or.inr (Or.inr (Or.inr h3)))
        · rw [if_neg h3]
          refine iff_of_false (by simp [Except.isOk, Except.toBool]) ?_
          rintro (ha | hb | hc | hd)
          · exact ha h1b
          · exact h2 (Or.inl hb)
          · exact h2 (Or.inr hc)
          · rw [not_not] at h3
            exact hd h3
  · intro ref fuel h
    unfold runGame
    by_cases h1 : ref.players.isEmpty
    · simp [h1, Except.isOk, Except.toBool]
    · rw [if_neg h1]
      rw [List.isEmpty_iff] at h1
      rcases hrc : ref.ruleChecker with _ | rc
      · simp [Except.isOk, Except.toBool]
      · rcases hti : ref.tileIterator with _ | it
        · simp [Except.isOk, Except.toBool]
        · rcases h with h | h | h
          · exact absurd h h1
          · rw [hrc] at h
            exact Option.noConfusion h
          · rw [hti] at h
            exact Option.noConfusion h

/-- C9 witness: the amended theorem instantiated on a fresh referee with
nothing set. -/
theorem c9_witness : (runGame {} 0).isOk = false :=
  c9_setup_contract.2 {} 0 (Or.inl rfl)

/-! ### Claim C8, part 1: players at rest, and placements that leave them
at rest

After every successful board operation each live agent rests on a tile whose
chosen port faces an empty on-board cell.  A validated initial placement has
all four neighbors empty, so it can touch no resting agent's path and the
placing agent immediately rests as well: path resolution after a validated
initial placement moves nobody. -/

theorem lookupA_append {K V : Type} [DecidableEq K] (m₁ m₂ : List (K × V)) (k : K) :
    lookupA (m₁ ++ m₂) k =
      match lookupA m₁ k with
      | some v => some v
      | none => lookupA m₂ k := by
  induction m₁ with
  | nil => rfl
  | cons kv t ih =>
    by_cases h : kv.1 = k <;> simp [lookupA, h, ih]

theorem setAssoc_append_of_none {K V : Type} [DecidableEq K] (m : List (K × V)) (k : K)
    (v : V) (h : lookupA m k = none) : setAssoc m k v = m ++ [(k, v)] := by
  induction m with
  | nil => rfl
  | cons kv t ih =>
    by_cases hk : kv.1 = k
    · simp [lookupA, hk] at h
    · simp only [lookupA, if_neg hk] at h
      simp [setAssoc, hk, ih h]

theorem lookupA_setAssoc_ne {K V : Type} [DecidableEq K] (m : List (K × V)) (k k2 : K)
    (v : V) (h : k ≠ k2) : lookupA (setAssoc m k2 v) k = lookupA m k := by
  have hne : ¬ k2 = k := fun he => h he.symm
  induction m with
  | nil => simp [setAssoc, lookupA, hne]
  | cons kv t ih =>
    by_cases hk : kv.1 = k2
    · have hkk : ¬ kv.1 = k := by rw [hk]; exact hne
      simp [setAssoc, hk, lookupA, hne, hkk]
    · by_cases hk2 : kv.1 = k <;> simp [setAssoc, hk, lookupA, hk2, ih, h]

theorem lookupA_some_of_mem_keys {K V : Type} [DecidableEq K] (m : List (K × V)) (k : K)
    (h : k ∈ m.map Prod.fst) : ∃ v, lookupA m k = some v := by
  have hne := (lookupA_ne_none_iff_mem m k).2 h
  rcases hl : lookupA m k with _ | v
  · exact absurd hl hne
  · exact ⟨v, rfl⟩

theorem foldl_removePlayer_id (cs : List Color) (b : BoardState)
    (h : ∀ c ∈ cs, lookupA b.live c = none) : cs.foldl removePlayer b = b := by
  have hb := foldl_removePlayer_board cs b
  have hl := foldl_removePlayer_live cs b
  have hfilter : b.live.filter (fun kv => decide (kv.1 ∉ cs)) = b.live := by
    apply List.filter_eq_self.2
    intro kv hkv
    have hkeys : kv.1 ∈ b.live.map Prod.fst := List.mem_map.2 ⟨kv, hkv, rfl⟩
    have hne := (lookupA_ne_none_iff_mem b.live kv.1).2 hkeys
    simp only [decide_eq_true_eq]
    intro hmem
    exact hne (h kv.1 hmem)
  rw [hfilter] at hl
  rcases hgoal : cs.foldl removePlayer b with ⟨bb, bl⟩
  rw [hgoal] at hb hl
  cases b
  simp_all

/-- One resting step of the walk: a live agent whose port faces an on-board
empty cell returns immediately, unmoved, no loop. -/
theorem walkGo_one_step (fuel : Nat) (b : BoardState) (c : Color) (pos : BoardPosition)
    (port : PortId) (q : BoardPosition) (hl : lookupA b.live c = some (pos, port))
    (hq : adjacentPos pos port = some q) (ht : b.getTile q = none) :
    walkGo (fuel + 1) b c [] = some (.ok (b, false, false)) := by
  unfold walkGo
  rw [hl]
  simp [calcAdjacent_of_lookup b c pos port hl, hq, ht]

theorem movePlayerAlongPath_rest (b : BoardState) (c : Color) (pos : BoardPosition)
    (port : PortId) (q : BoardPosition) (hl : lookupA b.live c = some (pos, port))
    (hq : adjacentPos pos port = some q) (ht : b.getTile q = none) :
    movePlayerAlongPath b c = .ok (b, false, false) := by
  have h801 : walkGo 801 b c [] = some (.ok (b, false, false)) :=
    walkGo_one_step 800 b c pos port q hl hq ht
  unfold movePlayerAlongPath
  rw [h801]

theorem moveAllGo_rest (cs : List Color) (b : BoardState)
    (h : ∀ c ∈ cs, movePlayerAlongPath b c = .ok (b, false, false)) :
    moveAllGo cs b [] [] = .ok (b, { loops := [], exits := [] }) := by
  induction cs with
  | nil => rfl
  | cons c rest ih =>
    unfold moveAllGo
    rw [h c (List.mem_cons_self c rest)]
    exact ih (fun d hd => h d (List.mem_cons_of_mem c hd))

/-- The rest invariant: every live agent sits on a tile and its port faces an
empty on-board cell. -/
def RestInv (b : BoardState) : Prop :=
  ∀ c pos port, lookupA b.live c = some (pos, port) →
    (b.getTile pos).isSome ∧ ∃ q, adjacentPos pos port = some q ∧ b.getTile q = none

theorem restInv_walks (b : BoardState) (h : RestInv b) :
    ∀ c ∈ liveColors b, movePlayerAlongPath b c = .ok (b, false, false) := by
  intro c hc
  obtain ⟨pp, hl⟩ := lookupA_some_of_mem_keys b.live c hc
  obtain ⟨_, q, hq, ht⟩ := h c pp.1 pp.2 (by rw [hl])
  exact movePlayerAlongPath_rest b c pp.1 pp.2 q (by rw [hl]) hq ht

/-- Path resolution on a board whose agents all rest does nothing. -/
theorem moveAllPlayers_rest (b : BoardState) (h : RestInv b) :
    moveAllPlayers b = .ok (b, { loops := [], exits := [] }) :=
  moveAllGo_rest (liveColors b) b (restInv_walks b h)

deriving instance Fintype for BoardPosition

/-- Stepping off a cell never stays on the same cell. -/
theorem adjacentPos_ne_self : ∀ (pos : BoardPosition) (port : PortId),
    adjacentPos pos port ≠ some pos := by decide

/-- `port_faces_interior` (which ignores the state) looks the same from
every board state. -/
theorem portFacesInterior_any (s : BoardState) (pos : BoardPosition) (port : PortId) :
    s.portFacesInterior pos port = BoardState.portFacesInterior {} pos port := rfl

/-- A port that faces the interior has its adjacent cell on the board. -/
theorem facesInterior_isSome : ∀ (pos : BoardPosition) (port : PortId),
    BoardState.portFacesInterior {} pos port = true →
      (adjacentPos pos port).isSome = true := by decide

/-- Bool core of `adjacentPos_symm`, checkable cell by cell. -/
def symmOk (pos : BoardPosition) (port : PortId) : Bool :=
  match adjacentPos pos port with
  | none => true
  | some q => (List.finRange 8).any (fun port2 => decide (adjacentPos q port2 = some pos))

theorem symmOk_true : ∀ (pos : BoardPosition) (port : PortId), symmOk pos port = true := by
  decide

/-- Cell adjacency is symmetric: some port of the adjacent cell steps
back. -/
theorem adjacentPos_symm (pos : BoardPosition) (port : PortId) (q : BoardPosition)
    (hadj : adjacentPos pos port = some q) : ∃ port2, adjacentPos q port2 = some pos := by
  have h := symmOk_true pos port
  unfold symmOk at h
  rw [hadj] at h
  obtain ⟨port2, _, hp⟩ := List.any_eq_true.1 h
  exact ⟨port2, of_decide_eq_true hp⟩

/-- Bool core of `adjacent_is_cardinal`, checkable cell by cell. -/
def cardinalOk (pos : BoardPosition) (port : PortId) : Bool :=
  match adjacentPos pos port with
  | none => true
  | some q =>
    decide (adjacentPos pos Port.TopLeft = some q) ||
      decide (adjacentPos pos Port.LeftTop = some q) ||
      decide (adjacentPos pos Port.BottomLeft = some q) ||
      decide (adjacentPos pos Port.RightTop = some q)

theorem cardinalOk_true : ∀ (pos : BoardPosition) (port : PortId),
    cardinalOk pos port = true := by decide

/-- Whatever the port, the adjacent cell is one of the four cardinal
neighbors checked by `surrounding_positions_are_empty`. -/
theorem adjacent_is_cardinal (pos : BoardPosition) (port : PortId) (q : BoardPosition)
    (hadj : adjacentPos pos port = some q) :
    adjacentPos pos Port.TopLeft = some q ∨ adjacentPos pos Port.LeftTop = some q ∨
      adjacentPos pos Port.BottomLeft = some q ∨
      adjacentPos pos Port.RightTop = some q := by
  have h := cardinalOk_true pos port
  unfold cardinalOk at h
  rw [hadj] at h
  simp only [Bool.or_eq_true, decide_eq_true_eq] at h
  tauto

/-- If the four cardinal neighbors of `pos` are all empty, so is the cell
one step from `pos` along any port. -/
theorem surroundingEmpty_covers (s : BoardState) (pos : BoardPosition) (port : PortId)
    (q : BoardPosition) (hadj : adjacentPos pos port = some q)
    (hse : s.surroundingEmpty pos = true) : s.getTile q = none := by
  unfold BoardState.surroundingEmpty at hse
  simp only [Bool.and_eq_true] at hse
  obtain ⟨⟨⟨h0, h7⟩, h5⟩, h2⟩ := hse
  have hempty : ∀ rep : PortId, adjacentPos pos rep = some q →
      s.emptyAt (adjacentPos pos rep) = true → s.getTile q = none := by
    intro rep hrep he
    rw [hrep] at he
    simp only [BoardState.emptyAt] at he
    rcases hg : s.getTile q with _ | t
    · rfl
    · rw [hg] at he
      simp at he
  rcases adjacent_is_cardinal pos port q hadj with hc | hc | hc | hc
  · exact hempty Port.TopLeft hc h0
  · exact hempty Port.LeftTop hc h7
  · exact hempty Port.BottomLeft hc h5
  · exact hempty Port.RightTop hc h2

theorem isValidInitialPosition_ok_inv (s : BoardState) (pos : BoardPosition)
    (h : isValidInitialPosition s pos = .ok ()) :
    s.getTile pos = none ∧ pos.isEdge ∧ s.surroundingEmpty pos = true := by
  unfold isValidInitialPosition at h
  by_cases h1 : (s.getTile pos).isSome
  · rw [if_pos h1] at h
    exact Except.noConfusion h
  · rw [if_neg h1] at h
    by_cases h2 : ¬ pos.isEdge
    · rw [if_pos h2] at h
      exact Except.noConfusion h
    · rw [if_neg h2] at h
      by_cases h3 : ¬ s.surroundingEmpty pos
      · rw [if_pos h3] at h
        exact Except.noConfusion h
      · refine ⟨?_, not_not.1 h2, not_not.1 h3⟩
        rcases hx : s.getTile pos with _ | t
        · rfl
        · rw [hx] at h1
          simp at h1

theorem validateInitialMove_ok_inv (s : BoardState) (m : InitialMove)
    (h : validateInitialMove s m = .ok ()) :
    lookupA s.live m.player = none ∧ s.getTile m.pos = none ∧
      s.surroundingEmpty m.pos = true ∧ s.portFacesInterior m.pos m.port = true := by
  unfold validateInitialMove at h
  by_cases h1 : (lookupA s.live m.player).isSome
  · rw [if_pos h1] at h
    exact Except.noConfusion h
  · rw [if_neg h1] at h
    rcases hpos : isValidInitialPosition s m.pos with e | u <;> simp only [hpos] at h
    · exact Except.noConfusion h
    · cases u
      unfold isValidInitialPort at h
      simp only [hpos] at h
      by_cases h5 : ¬ s.portFacesInterior m.pos m.port
      · rw [if_pos h5] at h
        exact Except.noConfusion h
      · obtain ⟨hg, _, hs⟩ := isValidInitialPosition_ok_inv s m.pos hpos
        refine ⟨?_, hg, hs, not_not.1 h5⟩
        rcases hx : lookupA s.live m.player with _ | v
        · rfl
        · rw [hx] at h1
          simp at h1

/-- The board state produced by a (validated) initial placement: the tile at
the target cell and the agent on its chosen port. -/
def placeInit (b : BoardState) (mv : InitialMove) : BoardState :=
  b.withChange (some (mv.tile, mv.pos)) (some (setAssoc b.live mv.player (mv.pos, mv.port)))

theorem placeInit_live (b : BoardState) (mv : InitialMove)
    (h : lookupA b.live mv.player = none) :
    (placeInit b mv).live = b.live ++ [(mv.player, (mv.pos, mv.port))] := by
  show setAssoc b.live mv.player (mv.pos, mv.port) = _
  exact setAssoc_append_of_none _ _ _ h

theorem placeInit_getTile_self (b : BoardState) (mv : InitialMove) :
    (placeInit b mv).getTile mv.pos = some mv.tile := by
  show lookupA (setAssoc b.board mv.pos mv.tile) mv.pos = some mv.tile
  exact lookupA_setAssoc_self b.board mv.pos mv.tile

theorem placeInit_getTile_ne (b : BoardState) (mv : InitialMove) (q : BoardPosition)
    (h : q ≠ mv.pos) : (placeInit b mv).getTile q = b.getTile q := by
  show lookupA (setAssoc b.board mv.pos mv.tile) q = lookupA b.board q
  exact lookupA_setAssoc_ne b.board q mv.pos mv.tile h

/-- A validated initial placement leaves every agent (the new one included)
at rest. -/
theorem placeInit_restInv (b : BoardState) (mv : InitialMove) (hrest : RestInv b)
    (hnl : lookupA b.live mv.player = none) (hgt : b.getTile mv.pos = none)
    (hse : b.surroundingEmpty mv.pos = true)
    (hfi : b.portFacesInterior mv.pos mv.port = true) :
    RestInv (placeInit b mv) := by
  intro c pos port hl
  rw [placeInit_live b mv hnl, lookupA_append] at hl
  rcases hb : lookupA b.live c with _ | pp <;> simp only [hb] at hl
  · -- the newly placed agent
    simp only [lookupA] at hl
    by_cases hc : mv.player = c
    · rw [if_pos hc] at hl
      simp only [Option.some.injEq, Prod.mk.injEq] at hl
      obtain ⟨hpo, hpr⟩ := hl
      rw [← hpo, ← hpr]
      constructor
      · rw [placeInit_getTile_self]
        rfl
      · have hfi2 : BoardState.portFacesInterior {} mv.pos mv.port = true := by
          rw [← portFacesInterior_any b]
          exact hfi
        have hisq := facesInterior_isSome mv.pos mv.port hfi2
        rcases hadj : adjacentPos mv.pos mv.port with _ | q
        · rw [hadj] at hisq
          simp at hisq
        · refine ⟨q, rfl, ?_⟩
          have hqne : q ≠ mv.pos := by
            intro he
            rw [he] at hadj
            exact adjacentPos_ne_self mv.pos mv.port hadj
          rw [placeInit_getTile_ne b mv q hqne]
          exact surroundingEmpty_covers b mv.pos mv.port q hadj hse
    · rw [if_neg hc] at hl
      exact Option.noConfusion hl
  · -- an agent that was already at rest
    simp only [Option.some.injEq] at hl
    obtain ⟨hownt, q, hq, hqe⟩ := hrest c pos port (by rw [hb, hl])
    constructor
    · have hne : pos ≠ mv.pos := by
        intro he
        rw [he, hgt] at hownt
        simp at hownt
      rw [placeInit_getTile_ne b mv pos hne]
      exact hownt
    · refine ⟨q, hq, ?_⟩
      have hqne : q ≠ mv.pos := by
        intro he
        obtain ⟨port2, hback⟩ := adjacentPos_symm pos port q hq
        rw [he] at hback
        have hnone := surroundingEmpty_covers b mv.pos port2 pos hback hse
        rw [hnone] at hownt
        simp at hownt
      rw [placeInit_getTile_ne b mv q hqne]
      exact hqe

/-- A validated initial move succeeds, produces exactly the placement state
(path resolution moves nobody and emits no events), and keeps everyone at
rest. -/
theorem initialMove_rest_spec (b : BoardState) (mv : InitialMove) (hrest : RestInv b)
    (hok : validateInitialMove b mv = .ok ()) :
    initialMove b mv = (.ok (), placeInit b mv, { loops := [], exits := [] }) ∧
      RestInv (placeInit b mv) ∧
      (placeInit b mv).live = b.live ++ [(mv.player, (mv.pos, mv.port))] := by
  obtain ⟨hnl, hgt, hse, hfi⟩ := validateInitialMove_ok_inv b mv hok
  have hrest2 := placeInit_restInv b mv hrest hnl hgt hse hfi
  have hm : moveAllPlayers
      (b.withChange (some (mv.tile, mv.pos))
        (some (setAssoc b.live mv.player (mv.pos, mv.port)))) =
      .ok (placeInit b mv, { loops := [], exits := [] }) :=
    moveAllPlayers_rest (placeInit b mv) hrest2
  have hscin : initialMoveWithScissorsInner b mv =
      (.ok (), placeInit b mv, { loops := [], exits := [] }) := by
    unfold initialMoveWithScissorsInner
    rw [hm]
  have hsc : initialMoveWithScissors b mv =
      (.ok (), placeInit b mv, { loops := [], exits := [] }) := by
    unfold initialMoveWithScissors
    rw [atomic_of_ok (fun s => initialMoveWithScissorsInner s mv) b _ _ hscin]
    exact hscin
  have hin : initialMoveInner b mv =
      (.ok (), placeInit b mv, { loops := [], exits := [] }) := by
    unfold initialMoveInner
    simp only [hok]
    exact hsc
  refine ⟨?_, hrest2, placeInit_live b mv hnl⟩
  unfold initialMove
  rw [atomic_of_ok (fun s => initialMoveInner s mv) b _ _ hin]
  exact hin

/-! ### Claim C8, part 2: the placement phase -/

theorem addCheater_not_mem (cs : List Color) (c : Color) (h : c ∉ cs) :
    addCheater cs c = cs ++ [c] := by
  unfold addCheater
  rw [if_neg h]

theorem lookupA_append_single_none {K V : Type} [DecidableEq K] (m : List (K × V))
    (k d : K) (v : V) (hm : lookupA m d = none) (hk : k ≠ d) :
    lookupA (m ++ [(k, v)]) d = none := by
  rw [lookupA_append, hm]
  simp [lookupA, hk]

theorem liveColors_placeInit (b : BoardState) (mv : InitialMove)
    (h : lookupA b.live mv.player = none) :
    liveColors (placeInit b mv) = liveColors b ++ [mv.player] := by
  unfold liveColors
  rw [placeInit_live b mv h, List.map_append]
  rfl

theorem getCheckInitialMove_spec (st : GameSt) (c : Color) (p : PlayerBehavior)
    (tiles : List Tile) (st2 : GameSt) (r : Option InitialMove)
    (h : getCheckInitialMove st c p tiles = .ok (st2, r)) :
    (r = none ∧ st2 = { st with cheaters := addCheater st.cheaters c }) ∨
      (∃ mv : InitialMove, r = some mv ∧ mv.player = c ∧ st2 = st ∧
        validateInitialMove st.board mv = .ok ()) := by
  unfold getCheckInitialMove at h
  rcases hgf : p.genFirst tiles st.board with e | ⟨pos, tile, port⟩ <;>
    simp only [hgf] at h
  · left
    simp only [Except.ok.injEq, Prod.mk.injEq] at h
    exact ⟨h.2.symm, h.1.symm⟩
  · rcases hrv : ruleValidateInitialMove st.board tiles ⟨pos, tile, port, c⟩ with e2 | u <;>
      simp only [hrv] at h
    · exact Except.noConfusion h
    · cases u
      right
      simp only [Except.ok.injEq, Prod.mk.injEq] at h
      refine ⟨⟨pos, tile, port, c⟩, h.2.symm, rfl, h.1.symm, ?_⟩
      unfold ruleValidateInitialMove at hrv
      rcases hp : checkValidMoveParams tiles tile EXPECTED_TILE_COUNT_INITIAL_MOVE
          with e3 | u2 <;> simp only [hp] at hrv
      · exact Except.noConfusion hrv
      · exact hrv

/-- Specification of the placement phase: under the rest invariant, with the
pending agents fresh (not yet live, not cheaters, pairwise distinct), a
completed pass partitions the pending agents into those placed (appended to
the live list, in order) and the new cheaters (appended to the cheater list),
and the final cheater batch-removal deletes exactly the cheaters from the
roster while leaving the board untouched. -/
theorem initialTurnsGo_spec :
    ∀ (ps : List (Color × PlayerBehavior)) (st st' : GameSt),
      RestInv st.board →
      (ps.map Prod.fst).Nodup →
      (∀ c ∈ ps.map Prod.fst, lookupA st.board.live c = none ∧ c ∉ st.cheaters) →
      (∀ c ∈ liveColors st.board, c ∉ st.cheaters) →
      initialTurnsGo ps st = .ok st' →
      ∃ placed newCheat : List Color,
        List.Perm (placed ++ newCheat) (ps.map Prod.fst) ∧
        st'.cheaters = st.cheaters ++ newCheat ∧
        liveColors st'.board = liveColors st.board ++ placed ∧
        st'.players = st.players.filter
          (fun cp => decide (cp.1 ∉ st.cheaters ++ newCheat)) ∧
        st'.leaderboard = st.leaderboard := by
  intro ps
  induction ps with
  | nil =>
    intro st st' _ _ _ hlive_nc h
    simp only [initialTurnsGo, Except.ok.injEq] at h
    subst h
    refine ⟨[], [], by simp, by simp [removeCheatersSt], ?_, ?_, rfl⟩
    · show liveColors (st.cheaters.foldl removePlayer st.board) = _
      rw [foldl_removePlayer_id st.cheaters st.board ?hn]
      · simp
      · intro c hc
        rcases hx : lookupA st.board.live c with _ | v
        · rfl
        · have hmem : c ∈ liveColors st.board :=
            (lookupA_ne_none_iff_mem st.board.live c).1 (by rw [hx]; exact Option.noConfusion)
          exact absurd hc (hlive_nc c hmem)
    · show st.players.filter (fun cp => decide (cp.1 ∉ st.cheaters)) = _
      simp only [List.append_nil]
  | cons cp0 rest ih =>
    obtain ⟨c, p⟩ := cp0
    intro st st' hrest hnd hpend hlive_nc h
    have hndr : (rest.map Prod.fst).Nodup := (List.nodup_cons.1 hnd).2
    have hcnr : c ∉ rest.map Prod.fst := (List.nodup_cons.1 hnd).1
    have hpc := hpend c (List.mem_cons_self _ _)
    unfold initialTurnsGo at h
    rcases hg : getCheckInitialMove (drawTiles st 3).2 c p (drawTiles st 3).1
        with e | ⟨st2, r⟩ <;> simp only [hg] at h
    · exact Except.noConfusion h
    · have hst1 : (drawTiles st 3).2 = { st with cursor := st.cursor + 3 } := rfl
      rw [hst1] at hg
      rcases getCheckInitialMove_spec _ c p _ st2 r hg with ⟨hr, hst2⟩ | ⟨mv, hr, hmvp, hst2, hval⟩
    -- the agent cheated and is skipped
      · subst hr
        simp only [] at h
        have hch : st2.cheaters = st.cheaters ++ [c] := by
          rw [hst2]
          exact addCheater_not_mem st.cheaters c hpc.2
        have hb2 : st2.board = st.board := by rw [hst2]
        have hp2 : st2.players = st.players := by rw [hst2]
        have hl2 : st2.leaderboard = st.leaderboard := by rw [hst2]
        have hpend2 : ∀ d ∈ rest.map Prod.fst,
            lookupA st2.board.live d = none ∧ d ∉ st2.cheaters := by
          intro d hd
          have hdp := hpend d (List.mem_cons_of_mem _ hd)
          refine ⟨by rw [hb2]; exact hdp.1, ?_⟩
          rw [hch]
          intro hmem
          rcases List.mem_append.1 hmem with hmem | hmem
          · exact hdp.2 hmem
          · rw [List.mem_singleton] at hmem
            subst hmem
            exact hcnr hd
        have hlivenc2 : ∀ d ∈ liveColors st2.board, d ∉ st2.cheaters := by
          intro d hd
          rw [hb2] at hd
          rw [hch]
          intro hmem
          rcases List.mem_append.1 hmem with hmem | hmem
          · exact hlive_nc d hd hmem
          · rw [List.mem_singleton] at hmem
            subst hmem
            have := (lookupA_ne_none_iff_mem st.board.live d).2 hd
            exact this hpc.1
        obtain ⟨placed, nc, hperm, hch', hlive', hpl', hlb'⟩ :=
          ih st2 st' (by rw [hb2]; exact hrest) hndr hpend2 hlivenc2 h
        refine ⟨placed, c :: nc, ?_, ?_, ?_, ?_, ?_⟩
        · exact List.perm_middle.trans (hperm.cons c)
        · rw [hch', hch, List.append_assoc]
          rfl
        · rw [hlive', hb2]
        · rw [hpl', hp2, hch]
          simp only [List.append_assoc, List.singleton_append]
        · rw [hlb', hl2]
    -- the agent placed a valid initial move
      · subst hr
        simp only [] at h
        have hb2 : st2.board = st.board := by rw [hst2]
        obtain ⟨hmv, hrest2, _⟩ := initialMove_rest_spec st.board mv hrest hval
        rw [hb2, hmv] at h
        simp only [] at h
        have hnl : lookupA st.board.live mv.player = none :=
          (validateInitialMove_ok_inv st.board mv hval).1
        have hpend2 : ∀ d ∈ rest.map Prod.fst,
            lookupA (placeInit st.board mv).live d = none ∧ d ∉ st2.cheaters := by
          intro d hd
          have hdp := hpend d (List.mem_cons_of_mem _ hd)
          have hdc : d ≠ mv.player := by
            rw [hmvp]
            intro he
            rw [he] at hd
            exact hcnr hd
          constructor
          · rw [placeInit_live st.board mv hnl]
            exact lookupA_append_single_none st.board.live mv.player d _ hdp.1
              (fun he => hdc he.symm)
          · rw [hst2]
            exact hdp.2
        have hlivenc2 : ∀ d ∈ liveColors (placeInit st.board mv), d ∉ st2.cheaters := by
          intro d hd
          rw [hst2]
          have hd2 : d ∈ liveColors st.board ++ [mv.player] := by
            rw [← liveColors_placeInit st.board mv hnl]
            exact hd
          rcases List.mem_append.1 hd2 with hmem | hmem
          · exact hlive_nc d hmem
          · rw [List.mem_singleton] at hmem
            subst hmem
            rw [hmvp]
            exact hpc.2
        obtain ⟨placed, nc, hperm, hch', hlive', hpl', hlb'⟩ :=
          ih { st2 with board := placeInit st.board mv } st' hrest2 hndr hpend2 hlivenc2 h
        refine ⟨c :: placed, nc, ?_, ?_, ?_, ?_, ?_⟩
        · exact hperm.cons c
        · rw [hch']
          rw [show st2.cheaters = st.cheaters from by rw [hst2]]
        · rw [hlive']
          show liveColors (placeInit st.board mv) ++ placed = _
          rw [liveColors_placeInit st.board mv hnl, hmvp, List.append_assoc]
          rfl
        · rw [hpl']
          rw [show st2.players = st.players from by rw [hst2],
            show st2.cheaters = st.cheaters from by rw [hst2]]
        · rw [hlb']
          rw [show st2.leaderboard = st.leaderboard from by rw [hst2]]

/-! ### Claim C8: the round phase and the result partition -/

/-- A fresh board trivially satisfies the rest invariant. -/
theorem restInv_empty : RestInv {} := by
  intro c pos port h
  exact Option.noConfusion h

/-- Flattening a reversed list of lists permutes the flattening. -/
theorem flatten_reverse_perm {α : Type} (l : List (List α)) :
    List.Perm l.reverse.flatten l.flatten := by
  induction l with
  | nil => exact List.Perm.refl _
  | cons x t ih =>
    simp only [List.reverse_cons, List.flatten_append, List.flatten_cons,
      List.flatten_nil, List.append_nil]
    exact List.perm_append_comm.trans (ih.append_left x)

/-- Dropping empty groups does not change the flattening. -/
theorem flatten_filter_ne_nil {α : Type} [DecidableEq α] (l : List (List α)) :
    (l.filter (fun x => decide (x ≠ []))).flatten = l.flatten := by
  induction l with
  | nil => rfl
  | cons x t ih =>
    rw [List.filter_cons]
    by_cases hx : x = []
    · rw [if_neg (by simp [hx]), ih, hx]
      simp
    · rw [if_pos (by simp [hx])]
      simp only [List.flatten_cons, ih]

/-- All agents a match state accounts for: the live ones, the fallen ones
recorded in the tiers so far, and the cheaters. -/
def combined (st : GameSt) : List Color :=
  liveColors st.board ++ st.leaderboard.flatten ++ st.cheaters

/-- Case analysis of `_get_check_intermediate_move`: either the agent is
marked a cheater and skipped, or its validated move is returned and the state
is untouched. -/
theorem getCheckIntermediateMove_spec (st : GameSt) (c : Color) (p : PlayerBehavior)
    (tiles : List Tile) (st2 : GameSt) (r : Option IntermediateMove)
    (h : getCheckIntermediateMove st c p tiles = (st2, r)) :
    (r = none ∧ st2 = { st with cheaters := addCheater st.cheaters c }) ∨
      (∃ mv : IntermediateMove, r = some mv ∧ mv.player = c ∧ st2 = st) := by
  unfold getCheckIntermediateMove at h
  rcases hgm : p.genMove tiles st.board with e | tile <;> simp only [hgm] at h
  · left
    simp only [Prod.mk.injEq] at h
    exact ⟨h.2.symm, h.1.symm⟩
  · rcases hv : validateMove st.board tiles ⟨tile, c⟩ with e2 | u <;> simp only [hv] at h
    · left
      simp only [Prod.mk.injEq] at h
      exact ⟨h.2.symm, h.1.symm⟩
    · right
      simp only [Prod.mk.injEq] at h
      exact ⟨⟨tile, c⟩, h.2.symm, rfl, h.1.symm⟩

/-- A successful `intermediate_move` body never adds live agents: the final
live keys are a filtering of the original ones. -/
theorem intermediateMoveInner_ok_live (b : BoardState) (m : IntermediateMove)
    (b2 : BoardState) (ev : Events)
    (h : intermediateMoveInner b m = (.ok (), b2, ev)) :
    ∃ p : Color → Bool, liveColors b2 = (liveColors b).filter p := by
  unfold intermediateMoveInner at h
  rcases hv : validateIntermediateMove b m with e | u <;> simp only [hv] at h
  · simp at h
  · rcases hadj : b.calcAdjacent m.player with e | _ | pos <;> simp only [hadj] at h
    · simp at h
    · simp at h
    · by_cases hocc : (b.getTile pos).isSome
      · rw [if_pos hocc] at h
        simp at h
      · rw [if_neg hocc] at h
        obtain ⟨b3, ev3, hmp, hb3, hk3⟩ := moveAllPlayers_spec (b.withTile m.tile pos)
        rw [hmp] at h
        simp only [] at h
        by_cases hlp : ev3.loops = []
        · rw [if_pos hlp] at h
          simp only [Prod.mk.injEq] at h
          refine ⟨fun k => decide (k ∉ ev3.exits), ?_⟩
          rw [← h.2.1]
          show b3.live.map Prod.fst = (b.live.map Prod.fst).filter _
          exact hk3
        · rw [if_neg hlp] at h
          simp only [Prod.mk.injEq] at h
          refine ⟨fun k => decide (k ∉ ev3.loops), ?_⟩
          rw [← h.2.1]
          show (ev3.loops.foldl removePlayer b).live.map Prod.fst =
            (b.live.map Prod.fst).filter _
          rw [foldl_removePlayer_live]
          exact map_fst_filter_key b.live (fun k => decide (k ∉ ev3.loops))

/-- Lifting of the previous lemma through the `@atomic` wrapper. -/
theorem intermediateMove_ok_live (b : BoardState) (m : IntermediateMove)
    (b2 : BoardState) (ev : Events)
    (h : intermediateMove b m = (.ok (), b2, ev)) :
    ∃ p : Color → Bool, liveColors b2 = (liveColors b).filter p := by
  have hfst : (intermediateMoveInner b m).1 = .ok () := by
    have ha := atomic_fst (fun s => intermediateMoveInner s m) b
    rw [show atomic (fun s => intermediateMoveInner s m) b = intermediateMove b m
      from rfl, h] at ha
    exact ha.symm
  have heta := opResult_eta _ hfst
  have hq := atomic_of_ok (fun s => intermediateMoveInner s m) b _ _ heta
  exact intermediateMoveInner_ok_live b m b2 ev (hq.symm.trans h)

/-- Specification of the round loop: a completed pass extends the cheater
list by live agents caught cheating this round and only ever filters the live
list; the roster, the tiers and the earlier cheaters are untouched. -/
theorem roundGo_spec :
    ∀ (ps : List (Color × PlayerBehavior)) (st st' : GameSt),
      (ps.map Prod.fst).Nodup →
      (∀ c ∈ ps.map Prod.fst, c ∈ liveColors st.board → c ∉ st.cheaters) →
      roundGo ps st = .ok st' →
      ∃ (nc : List Color) (p : Color → Bool),
        st'.cheaters = st.cheaters ++ nc ∧
        nc.Nodup ∧
        (∀ c ∈ nc, c ∈ liveColors st.board ∧ c ∉ st.cheaters) ∧
        liveColors st'.board = (liveColors st.board).filter p ∧
        st'.players = st.players ∧
        st'.leaderboard = st.leaderboard := by
  intro ps
  induction ps with
  | nil =>
    intro st st' _ _ h
    simp only [roundGo, Except.ok.injEq] at h
    subst h
    exact ⟨[], fun _ => true, by simp, List.nodup_nil, by simp,
      by rw [List.filter_true], rfl, rfl⟩
  | cons cp0 rest ih =>
    obtain ⟨c, p⟩ := cp0
    intro st st' hnd hlnc h
    have hndr : (rest.map Prod.fst).Nodup := (List.nodup_cons.1 hnd).2
    have hcnr : c ∉ rest.map Prod.fst := (List.nodup_cons.1 hnd).1
    unfold roundGo at h
    by_cases hlv : (lookupA st.board.live c).isNone
    · rw [if_pos hlv] at h
      exact ih st st' hndr (fun d hd => hlnc d (List.mem_cons_of_mem _ hd)) h
    · rw [if_neg hlv] at h
      have hclive : c ∈ liveColors st.board := by
        have hne : lookupA st.board.live c ≠ none := fun he => hlv (by rw [he]; rfl)
        exact (lookupA_ne_none_iff_mem st.board.live c).1 hne
      have hcnc : c ∉ st.cheaters := hlnc c (List.mem_cons_self _ _) hclive
      have hst1 : (drawTiles st 2).2 = { st with cursor := st.cursor + 2 } := rfl
      rcases hg : getCheckIntermediateMove (drawTiles st 2).2 c p (drawTiles st 2).1
          with ⟨st2, r⟩
      rcases r with _ | mv <;> simp only [hg] at h
      · rw [hst1] at hg
        rcases getCheckIntermediateMove_spec _ c p _ st2 none hg with
          ⟨_, hst2⟩ | ⟨mv, hmvr, _, _⟩
        · have hch2 : st2.cheaters = st.cheaters ++ [c] := by
            rw [hst2]
            exact addCheater_not_mem st.cheaters c hcnc
          have hb2 : st2.board = st.board := by rw [hst2]
          have hp2 : st2.players = st.players := by rw [hst2]
          have hl2 : st2.leaderboard = st.leaderboard := by rw [hst2]
          have hyp2 : ∀ d ∈ rest.map Prod.fst,
              d ∈ liveColors st2.board → d ∉ st2.cheaters := by
            intro d hd hdl
            rw [hb2] at hdl
            rw [hch2]
            intro hmem
            rcases List.mem_append.1 hmem with hmem | hmem
            · exact hlnc d (List.mem_cons_of_mem _ hd) hdl hmem
            · rw [List.mem_singleton] at hmem
              subst hmem
              exact hcnr hd
          obtain ⟨nc', p', hch', hnd', hmem', hlq', hpl', hlb'⟩ :=
            ih st2 st' hndr hyp2 h
          refine ⟨c :: nc', p', ?_, ?_, ?_, ?_, ?_, ?_⟩
          · rw [hch', hch2, List.append_assoc]
            rfl
          · refine List.nodup_cons.2 ⟨?_, hnd'⟩
            intro hcm
            have hno := (hmem' c hcm).2
            rw [hch2] at hno
            exact hno (List.mem_append.2 (Or.inr (List.mem_singleton.2 rfl)))
          · intro d hd
            rcases List.mem_cons.1 hd with hd | hd
            · subst hd
              exact ⟨hclive, hcnc⟩
            · refine ⟨by rw [← hb2]; exact (hmem' d hd).1, ?_⟩
              have h2 := (hmem' d hd).2
              rw [hch2] at h2
              exact fun hm => h2 (List.mem_append.2 (Or.inl hm))
          · rw [hlq', hb2]
          · rw [hpl', hp2]
          · rw [hlb', hl2]
        · exact Option.noConfusion hmvr
      · rw [hst1] at hg
        rcases getCheckIntermediateMove_spec _ c p _ st2 (some mv) hg with
          ⟨hrn, _⟩ | ⟨mv2, hmvr, hmvp, hst2⟩
        · exact Option.noConfusion hrn
        · have hmv2 : mv = mv2 := Option.some.inj hmvr
          subst hmv2
          have hb2 : st2.board = st.board := by rw [hst2]
          rw [hb2] at h
          rcases him : intermediateMove st.board mv with ⟨res, b2, ev⟩
          rcases res with e | u <;> simp only [him] at h
          · exact Except.noConfusion h
          · cases u
            obtain ⟨p1, hp1⟩ := intermediateMove_ok_live st.board mv b2 ev him
            have hchx : ({ st2 with board := b2 } : GameSt).cheaters = st.cheaters := by
              rw [hst2]
            have hplx : ({ st2 with board := b2 } : GameSt).players = st.players := by
              rw [hst2]
            have hlbx : ({ st2 with board := b2 } : GameSt).leaderboard =
                st.leaderboard := by
              rw [hst2]
            have hyp2 : ∀ d ∈ rest.map Prod.fst,
                d ∈ liveColors b2 → d ∉ st2.cheaters := by
              intro d hd hdl
              rw [hp1] at hdl
              have hdl2 := (List.mem_filter.1 hdl).1
              have hch2b : st2.cheaters = st.cheaters := by rw [hst2]
              rw [hch2b]
              exact hlnc d (List.mem_cons_of_mem _ hd) hdl2
            obtain ⟨nc', p', hch', hnd', hmem', hlq', hpl', hlb'⟩ :=
              ih { st2 with board := b2 } st' hndr hyp2 h
            refine ⟨nc', fun k => p' k && p1 k, ?_, hnd', ?_, ?_, ?_, ?_⟩
            · rw [hch', hchx]
            · intro d hd
              obtain ⟨hdl, hdc⟩ := hmem' d hd
              have hdl2 : d ∈ liveColors b2 := hdl
              rw [hp1] at hdl2
              refine ⟨(List.mem_filter.1 hdl2).1, ?_⟩
              intro hm
              exact hdc (by rw [hchx]; exact hm)
            · rw [hlq']
              show (liveColors b2).filter p' = _
              rw [hp1, List.filter_filter]
            · rw [hpl', hplx]
            · rw [hlb', hlbx]

/-- The fields of `_handle_players_lost_in_round` followed by
`_remove_cheaters`: the round's tier records the agents alive at round start
that are neither live nor cheaters now; the cheaters are removed from the
board and, with the tier, from the roster. -/
theorem handleLost_fields (st : GameSt) (aliveStart : List Color) :
    (handlePlayersLostInRound st aliveStart).cheaters = st.cheaters ∧
      (handlePlayersLostInRound st aliveStart).leaderboard =
        st.leaderboard ++ [aliveStart.filter
          (fun c => decide (c ∉ liveColors st.board) && decide (c ∉ st.cheaters))] ∧
      (handlePlayersLostInRound st aliveStart).board.live =
        st.board.live.filter (fun kv => decide (kv.1 ∉ st.cheaters)) ∧
      (handlePlayersLostInRound st aliveStart).players =
        (st.players.filter (fun cp => decide (cp.1 ∉ aliveStart.filter
            (fun c => decide (c ∉ liveColors st.board) &&
              decide (c ∉ st.cheaters))))).filter
          (fun cp => decide (cp.1 ∉ st.cheaters)) := by
  refine ⟨rfl, rfl, ?_, rfl⟩
  show (st.cheaters.foldl removePlayer st.board).live = _
  exact foldl_removePlayer_live st.cheaters st.board

/-- The multiset bookkeeping of one round: the still-live agents (minus the
new cheaters), this round's tier, and the new cheaters together permute the
agents alive at round start, so the whole account is preserved. -/
theorem partition_perm {α : Type} [DecidableEq α] (A F C L2 nc : List α)
    (p : α → Bool)
    (hco : (A ++ F ++ C).Nodup)
    (hL2 : L2 = A.filter p)
    (hncnd : nc.Nodup)
    (hncm : ∀ c ∈ nc, c ∈ A ∧ c ∉ C) :
    List.Perm
      (L2.filter (fun c => decide (c ∉ C ++ nc)) ++
        (F ++ A.filter (fun c => decide (c ∉ L2) && decide (c ∉ C ++ nc))) ++
        (C ++ nc))
      (A ++ F ++ C) := by
  subst hL2
  obtain ⟨hAF, hC, hdAFC⟩ := List.nodup_append.1 hco
  obtain ⟨hA, hF, hdAF⟩ := List.nodup_append.1 hAF
  have hLFsub : ∀ a, a ∈ (A.filter p).filter (fun c => decide (c ∉ C ++ nc)) →
      a ∈ A.filter p ∧ a ∉ C ++ nc := by
    intro a ha
    have h5 := List.mem_filter.1 ha
    exact ⟨h5.1, of_decide_eq_true h5.2⟩
  have hKsub : ∀ a, a ∈ A.filter
      (fun c => decide (c ∉ A.filter p) && decide (c ∉ C ++ nc)) →
      a ∈ A ∧ a ∉ A.filter p ∧ a ∉ C ++ nc := by
    intro a ha
    have h5 := List.mem_filter.1 ha
    have h6 := h5.2
    rw [Bool.and_eq_true] at h6
    exact ⟨h5.1, of_decide_eq_true h6.1, of_decide_eq_true h6.2⟩
  have hkey : List.Perm
      ((A.filter p).filter (fun c => decide (c ∉ C ++ nc)) ++
        (A.filter (fun c => decide (c ∉ A.filter p) && decide (c ∉ C ++ nc)) ++ nc))
      A := by
    have hnodLK : ((A.filter p).filter (fun c => decide (c ∉ C ++ nc)) ++
        (A.filter (fun c => decide (c ∉ A.filter p) && decide (c ∉ C ++ nc)) ++
          nc)).Nodup := by
      rw [List.nodup_append, List.nodup_append]
      refine ⟨(hA.filter _).filter _, ⟨hA.filter _, hncnd, ?_⟩, ?_⟩
      · intro a haK hanc
        exact (hKsub a haK).2.2 (List.mem_append.2 (Or.inr hanc))
      · intro a haLF ha2
        rcases List.mem_append.1 ha2 with haK | hanc
        · exact (hKsub a haK).2.1 (hLFsub a haLF).1
        · exact (hLFsub a haLF).2 (List.mem_append.2 (Or.inr hanc))
    refine (List.perm_ext_iff_of_nodup hnodLK hA).2 ?_
    intro a
    constructor
    · intro ha
      rcases List.mem_append.1 ha with haLF | h2
      · exact (List.mem_filter.1 (hLFsub a haLF).1).1
      · rcases List.mem_append.1 h2 with haK | hanc
        · exact (hKsub a haK).1
        · exact (hncm a hanc).1
    · intro ha
      by_cases hce : a ∈ C ++ nc
      · rcases List.mem_append.1 hce with hc | hn
        · exact (hdAFC (List.mem_append.2 (Or.inl ha)) hc).elim
        · exact List.mem_append.2 (Or.inr (List.mem_append.2 (Or.inr hn)))
      · by_cases hap : a ∈ A.filter p
        · refine List.mem_append.2 (Or.inl ?_)
          rw [List.mem_filter]
          exact ⟨hap, decide_eq_true hce⟩
        · refine List.mem_append.2 (Or.inr (List.mem_append.2 (Or.inl ?_)))
          rw [List.mem_filter, Bool.and_eq_true]
          exact ⟨ha, decide_eq_true hap, decide_eq_true hce⟩
  simp only [List.append_assoc]
  have wA : List.Perm
      (F ++ (A.filter (fun c => decide (c ∉ A.filter p) && decide (c ∉ C ++ nc)) ++
        (C ++ nc)))
      (A.filter (fun c => decide (c ∉ A.filter p) && decide (c ∉ C ++ nc)) ++
        (nc ++ (F ++ C))) := by
    refine ((@List.perm_append_comm _ C nc).append_left _ |>.append_left F).trans ?_
    refine (@List.perm_append_comm _ F _).trans ?_
    simp only [List.append_assoc]
    exact ((@List.perm_append_comm _ C F).append_left nc).append_left _
  refine (wA.append_left _).trans ?_
  have wC := hkey.append_right (F ++ C)
  simpa [List.append_assoc] using wC

/-- Specification of `_run_game_single_round`: a completed round permutes
the combined account (live agents, fallen tiers, cheaters) and keeps the
roster keys distinct. -/
theorem runRound_spec (st st' : GameSt)
    (hnd : (st.players.map Prod.fst).Nodup)
    (hco : (combined st).Nodup)
    (h : runRound st = .ok st') :
    List.Perm (combined st') (combined st) ∧
      (st'.players.map Prod.fst).Nodup := by
  unfold runRound at h
  rcases hrg : roundGo st.players st with e | st2 <;> simp only [hrg] at h
  · exact Except.noConfusion h
  · have hst' : st' = handlePlayersLostInRound st2 (liveColors st.board) :=
      (Except.ok.inj h).symm
    subst hst'
    unfold combined at hco
    have hdisj : ∀ c ∈ st.players.map Prod.fst,
        c ∈ liveColors st.board → c ∉ st.cheaters := by
      intro c _ hcl hcc
      obtain ⟨hAF, hC, hdAFC⟩ := List.nodup_append.1 hco
      exact hdAFC (List.mem_append.2 (Or.inl hcl)) hcc
    obtain ⟨nc, p, hch2, hncnd, hncmem, hlq2, hpl2, hlb2⟩ :=
      roundGo_spec st.players st st2 hnd hdisj hrg
    obtain ⟨hch3, hlb3, hlv3, hpl3⟩ := handleLost_fields st2 (liveColors st.board)
    have hLF : liveColors (handlePlayersLostInRound st2 (liveColors st.board)).board =
        (liveColors st2.board).filter (fun c => decide (c ∉ st2.cheaters)) := by
      show (handlePlayersLostInRound st2 (liveColors st.board)).board.live.map
        Prod.fst = _
      rw [hlv3]
      exact map_fst_filter_key st2.board.live (fun c => decide (c ∉ st2.cheaters))
    constructor
    · unfold combined
      rw [hLF, hlb3, hch3, hch2, hlb2]
      simp only [List.flatten_append, List.flatten_cons, List.flatten_nil,
        List.append_nil]
      exact partition_perm (liveColors st.board) st.leaderboard.flatten st.cheaters
        (liveColors st2.board) nc p hco hlq2 hncnd hncmem
    · rw [hpl3]
      have hsub : (((st2.players.filter (fun cp => decide (cp.1 ∉
          (liveColors st.board).filter (fun c => decide (c ∉ liveColors st2.board) &&
            decide (c ∉ st2.cheaters))))).filter
          (fun cp => decide (cp.1 ∉ st2.cheaters))).map Prod.fst).Sublist
          (st2.players.map Prod.fst) :=
        ((List.filter_sublist _).trans (List.filter_sublist _)).map Prod.fst
      refine List.Nodup.sublist hsub ?_
      rw [hpl2]
      exact hnd

/-- The `while` loop of `run_game` preserves the combined account up to
permutation. -/
theorem roundsLoop_spec :
    ∀ (fuel : Nat) (st st' : GameSt),
      (st.players.map Prod.fst).Nodup →
      (combined st).Nodup →
      roundsLoop fuel st = .ok st' →
      List.Perm (combined st') (combined st) := by
  intro fuel
  induction fuel with
  | zero =>
    intro st st' _ _ h
    unfold roundsLoop at h
    by_cases hle : st.board.live.length ≤ 1
    · rw [if_pos hle] at h
      rw [← Except.ok.inj h]
    · rw [if_neg hle] at h
      exact Except.noConfusion h
  | succ f ih =>
    intro st st' hnd hco h
    unfold roundsLoop at h
    by_cases hle : st.board.live.length ≤ 1
    · rw [if_pos hle] at h
      rw [← Except.ok.inj h]
    · rw [if_neg hle] at h
      rcases hrr : runRound st with e | st2 <;> simp only [hrr] at h
      · exact Except.noConfusion h
      · obtain ⟨hperm2, hnd2⟩ := runRound_spec st st2 hnd hco hrr
        have hco2 : (combined st2).Nodup := hperm2.symm.nodup hco
        exact (ih st2 st' hnd2 hco2 h).trans hperm2

/-- Inversion of a successful `set_players` on a fresh referee: the roster is
the first colors of the palette zipped with the players, duplicate-free, and
every bookkeeping field is still empty. -/
theorem setPlayers_ok (ps : List PlayerBehavior) (ref : Referee) (colors : List Color)
    (h : setPlayers {} ps = .ok (ref, colors)) :
    ref.players = colors.zip ps ∧
      colors = AllColors.take ps.length ∧
      ref.players.map Prod.fst = colors ∧
      colors.Nodup ∧
      ref.players ≠ [] ∧
      ref.cheaters = [] ∧ ref.leaderboard = [] := by
  unfold setPlayers at h
  rw [if_neg (by decide)] at h
  by_cases h3 : ps.length < 3 ∨ 5 < ps.length
  · rw [if_pos h3] at h
    exact Except.noConfusion h
  · rw [if_neg h3] at h
    by_cases h4 : ¬ (ps.map (fun p => p.pid)).Nodup
    · rw [if_pos h4] at h
      exact Except.noConfusion h
    · rw [if_neg h4] at h
      simp only [Except.ok.injEq, Prod.mk.injEq] at h
      obtain ⟨href, hcol⟩ := h
      subst hcol
      subst href
      push_neg at h3
      have hlen : (AllColors.take ps.length).length ≤ ps.length := by
        rw [List.length_take]
        exact Nat.min_le_left _ _
      refine ⟨rfl, rfl, ?_, ?_, ?_, rfl, rfl⟩
      · show ((AllColors.take ps.length).zip ps).map Prod.fst = _
        exact List.map_fst_zip _ _ hlen
      · exact List.Nodup.sublist (List.take_sublist _ _) (by decide)
      · show (AllColors.take ps.length).zip ps ≠ []
        intro hz
        have hzl := congrArg List.length hz
        rw [List.length_zip, List.length_take] at hzl
        simp only [List.length_nil] at hzl
        have h5 : AllColors.length = 5 := rfl
        rw [h5] at hzl
        omega

/-- C8: for every completed match (`run_game` returning ok on a referee set
up through `set_players`, `set_rule_checker` and `set_tile_iterator`), the
concatenation of the ranking tiers with the cheater list is a duplicate-free
permutation of the starting roster: every starting agent appears in exactly
one tier or in the cheater set, the tiers and the cheater set are pairwise
disjoint, and their union is the starting roster. -/
theorem c8_result_partition (ps : List PlayerBehavior) (ref : Referee)
    (colors : List Color) (rc : Nat) (stream : Nat → Tile) (fuel : Nat)
    (tiers : List (List Color)) (cheaters : List Color)
    (hsetup : setPlayers {} ps = .ok (ref, colors))
    (hrun : runGame (setTileIterator (setRuleChecker ref rc) stream) fuel =
      .ok (tiers, cheaters)) :
    List.Perm (tiers.flatten ++ cheaters) colors ∧
      (tiers.flatten ++ cheaters).Nodup := by
  obtain ⟨hpl, hcolt, hmapfst, hcolnd, hne, hch0, hlb0⟩ :=
    setPlayers_ok ps ref colors hsetup
  have hie : (setTileIterator (setRuleChecker ref rc) stream).players.isEmpty
      = false := by
    show ref.players.isEmpty = false
    rcases hp : ref.players with _ | ⟨x, xs⟩
    · exact absurd hp hne
    · rfl
  have hrc : (setTileIterator (setRuleChecker ref rc) stream).ruleChecker =
      some rc := rfl
  have hti : (setTileIterator (setRuleChecker ref rc) stream).tileIterator =
      some stream := rfl
  have hpx : (setTileIterator (setRuleChecker ref rc) stream).players =
      ref.players := rfl
  have hcx : (setTileIterator (setRuleChecker ref rc) stream).cheaters = [] := hch0
  have hlx : (setTileIterator (setRuleChecker ref rc) stream).leaderboard = [] := hlb0
  unfold runGame at hrun
  rw [if_neg (by simp [hie])] at hrun
  rw [hrc] at hrun
  simp only [] at hrun
  rw [hti] at hrun
  simp only [] at hrun
  rw [hpx, hcx, hlx] at hrun
  rcases hit : initialTurnsGo ref.players
      { board := {}, players := ref.players, cheaters := [], leaderboard := [],
        stream := stream, cursor := 0 } with e | st1 <;> simp only [hit] at hrun
  · exact Except.noConfusion hrun
  · rcases hrl : roundsLoop fuel st1 with e | stF <;> simp only [hrl] at hrun
    · exact Except.noConfusion hrun
    · simp only [generateGameResult, Except.ok.injEq, Prod.mk.injEq] at hrun
      obtain ⟨placed, newCheat, hprm, hch1, hlv1, hpl1, hlb1⟩ :=
        initialTurnsGo_spec ref.players
          { board := {}, players := ref.players, cheaters := [], leaderboard := [],
            stream := stream, cursor := 0 } st1 restInv_empty
          (by rw [hmapfst]; exact hcolnd)
          (fun c _ => ⟨rfl, List.not_mem_nil c⟩)
          (fun c hc => absurd hc (List.not_mem_nil c)) hit
      have hch1b : st1.cheaters = newCheat := hch1.trans (List.nil_append newCheat)
      have hlv1b : liveColors st1.board = placed :=
        hlv1.trans (List.nil_append placed)
      have hlb1b : st1.leaderboard = [] := hlb1
      have hcb1 : combined st1 = placed ++ newCheat := by
        unfold combined
        rw [hlv1b, hlb1b, hch1b]
        simp
      have hperm1 : List.Perm (combined st1) colors := by
        rw [hcb1, ← hmapfst]
        exact hprm
      have hco1 : (combined st1).Nodup := hperm1.symm.nodup hcolnd
      have hndref : (ref.players.map Prod.fst).Nodup := by
        rw [hmapfst]
        exact hcolnd
      have hnd1 : (st1.players.map Prod.fst).Nodup := by
        rw [hpl1]
        exact List.Nodup.sublist ((List.filter_sublist _).map Prod.fst) hndref
      have hperm2 : List.Perm (combined stF) (combined st1) :=
        roundsLoop_spec fuel st1 stF hnd1 hco1 hrl
      have hpermF : List.Perm (combined stF) colors := hperm2.trans hperm1
      have h1 : List.Perm tiers.flatten
          (stF.leaderboard.flatten ++ liveColors stF.board) := by
        rw [← hrun.1, flatten_filter_ne_nil]
        refine (flatten_reverse_perm _).trans ?_
        simp only [List.flatten_append, List.flatten_cons, List.flatten_nil,
          List.append_nil]
        exact List.Perm.refl _
      have h2 : List.Perm (tiers.flatten ++ cheaters)
          ((stF.leaderboard.flatten ++ liveColors stF.board) ++ stF.cheaters) := by
        rw [← hrun.2]
        exact h1.append_right _
      have h3 : List.Perm
          ((stF.leaderboard.flatten ++ liveColors stF.board) ++ stF.cheaters)
          (combined stF) := by
        unfold combined
        exact (@List.perm_append_comm _ stF.leaderboard.flatten
          (liveColors stF.board)).append_right _
      have hP : List.Perm (tiers.flatten ++ cheaters) colors :=
        (h2.trans h3).trans hpermF
      exact ⟨hP, hP.symm.nodup hcolnd⟩

/-- Three players whose callbacks always fail. -/
def c8Players : List PlayerBehavior :=
  [⟨0, fun _ _ => .error "no move", fun _ _ => .error "no move"⟩,
   ⟨1, fun _ _ => .error "no move", fun _ _ => .error "no move"⟩,
   ⟨2, fun _ _ => .error "no move", fun _ _ => .error "no move"⟩]

/-- The referee produced by `set_players` for those three players. -/
def c8Ref : Referee := { players := (AllColors.take 3).zip c8Players }

/-- C8 witness: a three-player match in which everybody cheats instantiates
the theorem; the run completes with empty tiers and all three agents in the
cheater list, a permutation of the roster. -/
theorem c8_witness :
    setPlayers {} c8Players = .ok (c8Ref, [Color.white, Color.black, Color.red]) ∧
      runGame (setTileIterator (setRuleChecker c8Ref 0) (fun _ => plusTile)) 1 =
        .ok ([], [Color.white, Color.black, Color.red]) ∧
      (List.Perm (([] : List (List Color)).flatten ++
          [Color.white, Color.black, Color.red])
        [Color.white, Color.black, Color.red] ∧
        (([] : List (List Color)).flatten ++
          [Color.white, Color.black, Color.red]).Nodup) :=
  ⟨rfl, rfl,
    c8_result_partition c8Players c8Ref [Color.white, Color.black, Color.red] 0
      (fun _ => plusTile) 1 [] [Color.white, Color.black, Color.red] rfl rfl⟩

end Tsuro
